import Mathlib

/-!
Shallow embedding of `src/randomMusicGenerator.py` (a chaotic randomized
polyphonic MIDI generator) together with proofs checking the repository's
specification against it.

Modelling conventions:
* Python's global `random` module is modelled by an explicit stream of
  naturals together with a cursor (`Rng`).  Every random primitive consumes
  one stream value: `random.randint(a, b)` becomes `a + draw % (b + 1 - a)`
  (always inside `[a, b]`), `random.random()` becomes a rational in `[0, 1)`,
  `random.choice(l)` indexes `l` by `draw % l.length`, and `random.shuffle`
  is a Fisher-Yates pass whose swap indices come from the stream.
* Python ints are `Int` where they can go negative (pitches) and `Nat` for
  tick counts, which are non-negative by construction.
* Python floats (`random.random()`, the `0.1 * ticks_per_beat` durations,
  beat fractions) are modelled as rationals; `int(x)` on a non-negative
  value is the floor.  At the fixed resolution of 480 ticks per beat the
  rational and floating point computations agree.
* Python's `//` raises `ZeroDivisionError` on a zero divisor, represented by
  `Except String`; the harmony generator divides without a zero guard, so it
  and everything calling it is `Except`-valued.
* The source mutates a `track_events` list via `add_note`; the embedding
  returns the same list as the concatenation of the appended two-element
  chunks, and loops become structural recursions over the loop counts.
-/

set_option maxRecDepth 8192

/-- The ambient random source: a stream of naturals and a read cursor. -/
structure Rng where
  stream : Nat → Nat
  idx : Nat

/-- Consume one raw draw from the stream. -/
def Rng.next (r : Rng) : Nat × Rng :=
  (r.stream r.idx, ⟨r.stream, r.idx + 1⟩)

/-- Model of `random.randint(lo, hi)`: a value in `[lo, hi]` (for `lo ≤ hi`). -/
def Rng.randint (r : Rng) (lo hi : Nat) : Nat × Rng :=
  let (n, r1) := r.next
  (lo + n % (hi + 1 - lo), r1)

/-- Exact unnormalized fraction model of the non-negative Python floats the
script computes with: uniform draws, the decimal literals 0.1/0.2/0.5/0.7,
and the L-system duration values 1.0/0.5.  Every float operation the script
performs on these values is order-exact at the granularity modelled here,
and keeping fractions unnormalized lets the kernel evaluate them. -/
structure PyFloat where
  num : Nat
  den : Nat
deriving DecidableEq, Repr

/-- Comparison `a < b` of two non-negative fractions. -/
def PyFloat.blt (a b : PyFloat) : Bool := decide (a.num * b.den < b.num * a.den)

/-- Multiplication of a fraction by a natural number. -/
def PyFloat.mulNat (a : PyFloat) (k : Nat) : PyFloat := ⟨a.num * k, a.den⟩

/-- `int(a * k)` for a non-negative fraction `a`: the floor of the product. -/
def PyFloat.floorMulNat (a : PyFloat) (k : Nat) : Nat := a.num * k / a.den

/-- The rational value a fraction stands for. -/
def PyFloat.toQ (a : PyFloat) : ℚ := (a.num : ℚ) / (a.den : ℚ)

/-- Model of `random.random()`: a uniform draw in `[0, 1)` at granularity
one thousandth (comparisons against the script's decimal literals are exact
at any granularity, since `PyFloat.blt` cross-multiplies). -/
def Rng.random (r : Rng) : PyFloat × Rng :=
  let (n, r1) := r.next
  (⟨n % 1000, 1000⟩, r1)

/-- Model of `random.choice(l)` (defaulting on the empty list, which the
source never passes). -/
def Rng.choice {α : Type} (r : Rng) (l : List α) (dflt : α) : α × Rng :=
  let (n, r1) := r.next
  (l.getD (n % l.length) dflt, r1)

/-- Swap the entries at positions `i` and `j` of a list (out-of-range
positions leave the list unchanged up to `getD` defaults). -/
def listSwap {α : Type} [Inhabited α] (l : List α) (i j : Nat) : List α :=
  (l.set i (l.getD j default)).set j (l.getD i default)

/-- One Fisher-Yates step at position `i`: draw `j ≤ i` and swap. -/
def Rng.shuffleStep {α : Type} [Inhabited α] (r : Rng) (l : List α) (i : Nat) :
    List α × Rng :=
  let (n, r1) := r.next
  (listSwap l i (n % (i + 1)), r1)

/-- Fisher-Yates passes at positions `i, i-1, …, 1`. -/
def Rng.shuffleAux {α : Type} [Inhabited α] (r : Rng) (l : List α) :
    Nat → List α × Rng
  | 0 => (l, r)
  | i + 1 =>
    let (l1, r1) := r.shuffleStep l (i + 1)
    r1.shuffleAux l1 i

/-- Model of `random.shuffle(l)` (Fisher-Yates driven by the stream). -/
def Rng.shuffle {α : Type} [Inhabited α] (r : Rng) (l : List α) :
    List α × Rng :=
  r.shuffleAux l (l.length - 1)

/-- Python `//` on naturals: `ZeroDivisionError` on a zero divisor. -/
def pyFloorDiv (a b : Nat) : Except String Nat :=
  if b = 0 then .error "ZeroDivisionError" else .ok (a / b)

/-! ## Event model -/

/-- Kind tag of a timed MIDI event. -/
inductive EvKind : Type
  | note_on : EvKind
  | note_off : EvKind
deriving DecidableEq, Repr

/-- One absolute-time event tuple
`(start_tick, kind, note, velocity, channel)` as appended by `add_note`. -/
structure TimedEvent where
  tick : Nat
  kind : EvKind
  note : Int
  velocity : Nat
  channel : Nat
deriving DecidableEq, Repr

/-- `add_note`: append the `note_on`/`note_off` pair for one note to the
event list (source lines 68-72). -/
def add_note (track_events : List TimedEvent) (note : Int) (velocity : Nat)
    (start_tick duration_ticks : Nat) (channel : Nat) : List TimedEvent :=
  track_events ++
    [⟨start_tick, .note_on, note, velocity, channel⟩,
     ⟨start_tick + duration_ticks, .note_off, note, velocity, channel⟩]

/-! ## Globals -/

/-- `TICKS_PER_BEAT` global. -/
def TICKS_PER_BEAT : Nat := 480

/-- `RANDOM_INSTRUMENTS` table of GM program numbers. -/
def RANDOM_INSTRUMENTS : List Nat := [0, 17, 52, 56, 80, 30, 19, 73, 42, 13]

/-- `DRUM_NOTES` percussion pitch table. -/
def DRUM_NOTES : List Int := [35, 36, 38, 40, 41, 42, 43, 46, 49, 51, 57]

/-- The note-name list used by `get_random_chord_progression` and the
melody scale builder. -/
def note_names : List String :=
  ["C", "C#", "D", "D#", "E", "F"] ++ ["F#", "G", "G#", "A", "A#", "B"]

/-- The `note_map` dictionary inside `note_name_to_midi` (`.get` defaults
to 0 for unknown names). -/
def note_map (s : String) : Int :=
  if s = "C" then 0 else if s = "C#" then 1 else if s = "Db" then 1
  else if s = "D" then 2 else if s = "D#" then 3 else if s = "Eb" then 3
  else if s = "E" then 4 else if s = "F" then 5 else if s = "F#" then 6
  else if s = "Gb" then 6 else if s = "G" then 7 else if s = "G#" then 8
  else if s = "Ab" then 8 else if s = "A" then 9 else if s = "A#" then 10
  else if s = "Bb" then 10 else if s = "B" then 11 else 0

/-- `note_name_to_midi`: `12 * (octave + 1) + base`. -/
def note_name_to_midi (note_name : String) (octave : Nat) : Int :=
  12 * ((octave : Int) + 1) + note_map note_name

/-! ## L-system -/

/-- One rewrite pass of the L-system: every symbol with a rule is replaced
by its expansion, others are kept. -/
def lsystemStep (rules : Char → Option (List Char)) (cur : List Char) :
    List Char :=
  cur.flatMap (fun c => (rules c).getD [c])

/-- `l_system`: `depth` rewrite passes starting from the axiom string
(source lines 74-82; the loop iterates `lsystemStep`). -/
def l_system (start : List Char) (rules : Char → Option (List Char)) :
    Nat → List Char
  | 0 => start
  | d + 1 => lsystemStep rules (l_system start rules d)

/-- The fixed duration grammar of `lsystem_durations`: A → "AB", B → "A". -/
def durRules : Char → Option (List Char) :=
  fun c =>
    if c = 'A' then some ['A', 'B']
    else if c = 'B' then some ['A']
    else none

/-- The per-symbol duration-in-beats value appended by the loop in
`lsystem_durations` (A is a quarter, 1.0 beats; anything else an eighth,
0.5 beats). -/
def symbolDuration (c : Char) : PyFloat :=
  if c = 'A' then ⟨1, 1⟩ else ⟨5, 10⟩

/-- `lsystem_durations`: expand the fixed grammar from axiom "A" and map
each symbol to its duration in beats (source lines 244-259; the source
builds the list with an appending loop). -/
def lsystem_durations (depth : Nat) : List PyFloat :=
  (l_system ['A'] durRules depth).foldl
    (fun durations c => durations ++ [symbolDuration c]) []

/-! ## Chord progression -/

/-- The `possible_modes` dictionary, in Python 3.7+ insertion order. -/
def possible_modes : List (String × List Int) :=
  [("major", [0, 2, 4, 5, 7, 9, 11]),
   ("minor", [0, 2, 3, 5, 7, 8, 10]),
   ("phrygian", [0, 1, 3, 5, 7, 8, 10]),
   ("lydian", [0, 2, 4, 6, 7, 9, 11])]

/-- `build_triads` (nested in `get_random_chord_progression`): a major or a
minor triad on the given root, chosen with probability 1/2 each. -/
def build_triads (r : Rng) (base_note_midi : Int) : List Int × Rng :=
  let (q, r1) := r.random
  if q.blt ⟨5, 10⟩ then
    ([base_note_midi, base_note_midi + 4, base_note_midi + 7], r1)
  else
    ([base_note_midi, base_note_midi + 3, base_note_midi + 7], r1)

/-- The `for _ in range(num_chords)` loop of `get_random_chord_progression`:
pick an interval of the mode, build a triad on root plus interval. -/
def chordLoop (r : Rng) (intervals : List Int) (base_root_midi : Int) :
    Nat → List (List Int) × Rng
  | 0 => ([], r)
  | k + 1 =>
    let (interval, r1) := r.choice intervals 0
    let chord_root := base_root_midi + interval
    let (triad, r2) := build_triads r1 chord_root
    let (rest, r3) := chordLoop r2 intervals base_root_midi k
    (triad :: rest, r3)

/-- `get_random_chord_progression` (source lines 87-129). -/
def get_random_chord_progression (r : Rng) (num_chords : Nat) :
    (List (List Int) × String) × Rng :=
  let (root_choice, r1) := r.choice note_names "C"
  let (octave_choice, r2) := r1.randint 2 5
  let (mode, r3) := r2.choice possible_modes ("major", [0, 2, 4, 5, 7, 9, 11])
  let base_root_midi := note_name_to_midi root_choice octave_choice
  let (chords, r4) := chordLoop r3 mode.2 base_root_midi num_chords
  ((chords, root_choice ++ toString octave_choice ++ " " ++ mode.1), r4)

/-! ## Drum generator -/

/-- `int(0.1 * ticks_per_beat)`, the fixed drum-hit duration. -/
def tenthBeat (ticks_per_beat : Nat) : Nat :=
  PyFloat.floorMulNat ⟨1, 10⟩ ticks_per_beat

/-- The random-hit loop of one drum measure. -/
def drumHits (r : Rng) (measure_start beats_per_measure ticks_per_beat : Nat) :
    Nat → List TimedEvent × Rng
  | 0 => ([], r)
  | k + 1 =>
    let (random_drum_note, r1) := r.choice DRUM_NOTES 35
    let (q, r2) := r1.random
    let start_t :=
      measure_start + (q.mulNat beats_per_measure).floorMulNat ticks_per_beat
    let dur_t := tenthBeat ticks_per_beat
    let (velocity, r3) := r2.randint 40 120
    let (rest, r4) := drumHits r3 measure_start beats_per_measure ticks_per_beat k
    (add_note [] random_drum_note velocity start_t dur_t 9 ++ rest, r4)

/-- One measure of `create_drum_track_chaos`: the 4/4 kick/snare backbone
plus a random number (2-8) of random hits. -/
def drumMeasure (r : Rng) (measure_idx beats_per_measure ticks_per_beat : Nat) :
    List TimedEvent × Rng :=
  let measure_start := measure_idx * beats_per_measure * ticks_per_beat
  let backbone : List TimedEvent :=
    if beats_per_measure = 4 then
      add_note [] 36 100 measure_start (tenthBeat ticks_per_beat) 9 ++
        add_note [] 38 100 (measure_start + 2 * ticks_per_beat)
          (tenthBeat ticks_per_beat) 9
    else []
  let (random_hits, r1) := r.randint 2 8
  let (hits, r2) := drumHits r1 measure_start beats_per_measure ticks_per_beat random_hits
  (backbone ++ hits, r2)

/-- The measure loop of `create_drum_track_chaos` (count remaining, index). -/
def drumMeasures (r : Rng) (beats_per_measure ticks_per_beat : Nat) :
    Nat → Nat → List TimedEvent × Rng
  | 0, _ => ([], r)
  | k + 1, measure_idx =>
    let (evs, r1) := drumMeasure r measure_idx beats_per_measure ticks_per_beat
    let (rest, r2) := drumMeasures r1 beats_per_measure ticks_per_beat k (measure_idx + 1)
    (evs ++ rest, r2)

/-- `create_drum_track_chaos` (source lines 134-168). -/
def create_drum_track_chaos (r : Rng)
    (num_measures beats_per_measure ticks_per_beat : Nat) :
    List TimedEvent × Rng :=
  drumMeasures r beats_per_measure ticks_per_beat num_measures 0

/-! ## Bass generator -/

/-- The guarded sub-tick length of `create_bass_track_chaos`:
`chord_length_ticks // subdivs if subdivs > 0 else chord_length_ticks`. -/
def bass_sub_tick_length (chord_length_ticks subdivs : Nat) : Nat :=
  if subdivs > 0 then chord_length_ticks / subdivs else chord_length_ticks

/-- One bass slot's pitch: root with probability 0.7 else fifth, then with
probability 0.5 shifted by a uniform choice among -12, 0, +12. -/
def bassNote (r : Rng) (chord_root chord_fifth : Int) : Int × Rng :=
  let (q1, r1) := r.random
  let note : Int := if q1.blt ⟨7, 10⟩ then chord_root else chord_fifth
  let (q2, r2) := r1.random
  if q2.blt ⟨5, 10⟩ then
    let (shift, r3) := r2.choice ([-12, 0, 12] : List Int) 0
    (note + shift, r3)
  else
    (note + 0, r2)

/-- The `for _ in range(subdivs)` loop of `create_bass_track_chaos`. -/
def bassSlots (r : Rng) (chord_root chord_fifth : Int) (sub_tick_length : Nat) :
    Nat → Nat → List TimedEvent × Rng
  | 0, _ => ([], r)
  | k + 1, t_start =>
    let (note, r1) := bassNote r chord_root chord_fifth
    let (velocity, r2) := r1.randint 50 100
    let (rest, r3) :=
      bassSlots r2 chord_root chord_fifth sub_tick_length k (t_start + sub_tick_length)
    (add_note [] note velocity t_start sub_tick_length 1 ++ rest, r3)

/-- One chord of `create_bass_track_chaos`: draw `subdivs ∈ [1,5]` and emit
the slots left to right from `current_time`. -/
def bassChord (r : Rng) (chord : List Int) (chord_length_ticks current_time : Nat) :
    List TimedEvent × Rng :=
  let chord_root := chord.getD 0 0
  let chord_fifth := chord.getD 2 0
  let (subdivs, r1) := r.randint 1 5
  let sub_tick_length := bass_sub_tick_length chord_length_ticks subdivs
  bassSlots r1 chord_root chord_fifth sub_tick_length subdivs current_time

/-- The chord loop of `create_bass_track_chaos`; `current_time` advances by
exactly `chord_length_ticks` per chord (the source recomputes the constant
`chord_length_ticks = int(beats_per_chord * ticks_per_beat)` in each
iteration). -/
def bassChords (r : Rng) (chord_length_ticks : Nat) :
    List (List Int) → Nat → List TimedEvent × Rng
  | [], _ => ([], r)
  | chord :: rest, current_time =>
    let (evs, r1) := bassChord r chord chord_length_ticks current_time
    let (restEvs, r2) := bassChords r1 chord_length_ticks rest (current_time + chord_length_ticks)
    (evs ++ restEvs, r2)

/-- `create_bass_track_chaos` (source lines 173-206); `beats_per_chord` is
an integer here (the script passes `float(beats_per_measure)`, whose product
with `ticks_per_beat` is exact, so `int(beats_per_chord * ticks_per_beat)`
is the plain product). -/
def create_bass_track_chaos (r : Rng) (chords : List (List Int))
    (beats_per_chord ticks_per_beat : Nat) : List TimedEvent × Rng :=
  bassChords r (beats_per_chord * ticks_per_beat) chords 0

/-! ## Harmony generator -/

/-- The unguarded press length of `create_harmony_track_chaos`:
`press_length = chord_length_ticks // presses` with no zero guard, so a
zero press count is a `ZeroDivisionError`. -/
def harmony_press_length (chord_length_ticks presses : Nat) : Except String Nat :=
  pyFloorDiv chord_length_ticks presses

/-- The `for note in chord_notes` loop of one harmony press.  The divisor
`chord_len` is `len(chord_notes)`; the source evaluates
`press_length // len(chord_notes)` inside this loop, so the division only
happens when the list is non-empty. -/
def harmonyPressNotes (r : Rng) (chord_len press_length : Nat) :
    List Int → Nat → List TimedEvent × Nat × Rng
  | [], time_ptr => ([], time_ptr, r)
  | note :: rest, time_ptr =>
    let (velocity, r1) := r.randint 40 90
    let note_dur := press_length / chord_len
    let (restEvs, final_ptr, r2) :=
      harmonyPressNotes r1 chord_len press_length rest (time_ptr + note_dur)
    (add_note [] note velocity time_ptr note_dur 2 ++ restEvs, final_ptr, r2)

/-- The `for _ in range(presses)` loop of `create_harmony_track_chaos`:
shuffle a copy of the chord, then emit its notes back to back. -/
def harmonyPresses (r : Rng) (chord : List Int) (press_length : Nat) :
    Nat → Nat → List TimedEvent × Nat × Rng
  | 0, time_ptr => ([], time_ptr, r)
  | k + 1, time_ptr =>
    let (chord_notes, r1) := r.shuffle chord
    let (evs, time_ptr1, r2) :=
      harmonyPressNotes r1 chord_notes.length press_length chord_notes time_ptr
    let (restEvs, time_ptr2, r3) := harmonyPresses r2 chord press_length k time_ptr1
    (evs ++ restEvs, time_ptr2, r3)

/-- One chord of `create_harmony_track_chaos`: draw `presses ∈ [1,3]` and
divide the chord length by it (unguarded). -/
def harmonyChord (r : Rng) (chord : List Int) (chord_length_ticks current_time : Nat) :
    Except String (List TimedEvent × Rng) :=
  let (presses, r1) := r.randint 1 3
  match harmony_press_length chord_length_ticks presses with
  | .error e => .error e
  | .ok press_length =>
    let (evs, _, r2) := harmonyPresses r1 chord press_length presses current_time
    .ok (evs, r2)

/-- The chord loop of `create_harmony_track_chaos`; `current_time` advances
by exactly `chord_length_ticks` per chord. -/
def harmonyChords (r : Rng) (chord_length_ticks : Nat) :
    List (List Int) → Nat → Except String (List TimedEvent × Rng)
  | [], _ => .ok ([], r)
  | chord :: rest, current_time =>
    match harmonyChord r chord chord_length_ticks current_time with
    | .error e => .error e
    | .ok (evs, r1) =>
      match harmonyChords r1 chord_length_ticks rest (current_time + chord_length_ticks) with
      | .error e => .error e
      | .ok (restEvs, r2) => .ok (evs ++ restEvs, r2)

/-- `create_harmony_track_chaos` (source lines 211-239). -/
def create_harmony_track_chaos (r : Rng) (chords : List (List Int))
    (beats_per_chord ticks_per_beat : Nat) : Except String (List TimedEvent × Rng) :=
  harmonyChords r (beats_per_chord * ticks_per_beat) chords 0

/-! ## Melody generator -/

/-- The guarded melody budget: `chord_length_ticks // notes_in_this_chord
if notes_in_this_chord else chord_length_ticks`. -/
def melody_sub_tick (chord_length_ticks notes_in_this_chord : Nat) : Nat :=
  if notes_in_this_chord ≠ 0 then chord_length_ticks / notes_in_this_chord
  else chord_length_ticks

/-- The phrase comprehension of `create_melody_track_chaos`:
`[random.randint(0, len(scale_notes)-1) for _ in range(phrase_length)]`. -/
def phraseLoop (r : Rng) (hi : Nat) : Nat → List Nat × Rng
  | 0 => ([], r)
  | k + 1 =>
    let (i, r1) := r.randint 0 hi
    let (rest, r2) := phraseLoop r1 hi k
    (i :: rest, r2)

/-- One melody note: pick a phrase index, resolve it in the scale, apply
the two sequential octave-shift checks (+12 at p 0.2, else -12 at p 0.2),
take the next cycled L-system duration, clamp it by the budget and emit.
Returns the appended chunk and the clamped duration. -/
def melodyNote (r : Rng) (phrase : List Nat) (scale_notes : List Int)
    (durations_list : List PyFloat) (lsys_idx sub_tick ticks_per_beat current_time : Nat) :
    List TimedEvent × Nat × Rng :=
  let (note_idx, r1) := r.choice phrase 0
  let base_note := scale_notes.getD note_idx 0
  let (q1, r2) := r1.random
  let (note, r3) :=
    if q1.blt ⟨2, 10⟩ then (base_note + 12, r2)
    else
      let (q2, r2a) := r2.random
      if q2.blt ⟨2, 10⟩ then (base_note - 12, r2a) else (base_note, r2a)
  let dur_beats := durations_list.getD (lsys_idx % durations_list.length) ⟨0, 1⟩
  let note_dur_ticks := dur_beats.floorMulNat ticks_per_beat
  let duration := min note_dur_ticks sub_tick
  let (velocity, r4) := r3.randint 60 127
  (add_note [] note velocity current_time duration 0, duration, r4)

/-- The per-chord note loop of `create_melody_track_chaos`
(count, lsys index, cursor); the cursor advances by the clamped duration. -/
def melodyNotes (r : Rng) (phrase : List Nat) (scale_notes : List Int)
    (durations_list : List PyFloat) (sub_tick ticks_per_beat : Nat) :
    Nat → Nat → Nat → List TimedEvent × Nat × Nat × Rng
  | 0, lsys_idx, current_time => ([], lsys_idx, current_time, r)
  | k + 1, lsys_idx, current_time =>
    let (chunk, duration, r1) :=
      melodyNote r phrase scale_notes durations_list lsys_idx sub_tick ticks_per_beat current_time
    let (rest, li, ct, r2) :=
      melodyNotes r1 phrase scale_notes durations_list sub_tick ticks_per_beat k
        (lsys_idx + 1) (current_time + duration)
    (chunk ++ rest, li, ct, r2)

/-- The chord loop of `create_melody_track_chaos` (the chord value itself is
unused by the loop body; only the count matters). -/
def melodyChords (r : Rng) (phrase : List Nat) (scale_notes : List Int)
    (durations_list : List PyFloat) (chord_length_ticks ticks_per_beat : Nat) :
    List (List Int) → Nat → Nat → List TimedEvent × Nat × Nat × Rng
  | [], lsys_idx, current_time => ([], lsys_idx, current_time, r)
  | _chord :: rest, lsys_idx, current_time =>
    let (notes_in_this_chord, r1) := r.randint 2 6
    let sub_tick := melody_sub_tick chord_length_ticks notes_in_this_chord
    let (evs, li, ct, r2) :=
      melodyNotes r1 phrase scale_notes durations_list sub_tick ticks_per_beat
        notes_in_this_chord lsys_idx current_time
    let (restEvs, li2, ct2, r3) :=
      melodyChords r2 phrase scale_notes durations_list chord_length_ticks ticks_per_beat
        rest li ct
    (evs ++ restEvs, li2, ct2, r3)

/-- `create_melody_track_chaos` (source lines 261-310). -/
def create_melody_track_chaos (r : Rng) (chords : List (List Int))
    (scale_notes : List Int) (beats_per_chord ticks_per_beat : Nat) :
    List TimedEvent × Rng :=
  let (depth, r1) := r.randint 2 5
  let durations_list := lsystem_durations depth
  let (phrase_length, r2) := r1.randint 3 7
  let (phrase, r3) := phraseLoop r2 (scale_notes.length - 1) phrase_length
  let (evs, _, _, r4) :=
    melodyChords r3 phrase scale_notes durations_list
      (beats_per_chord * ticks_per_beat) ticks_per_beat chords 0 0
  (evs, r4)

/-! ## Serializer -/

/-- Delta-time messages of the output file, one constructor per mido
message kind the script emits. -/
inductive MidoMsg : Type
  | program_change (program channel : Nat) (time : Int)
  | set_tempo (tempo : Nat) (time : Int)
  | note_on (note : Int) (velocity : Nat) (time : Int) (channel : Nat)
  | note_off (note : Int) (velocity : Nat) (time : Int) (channel : Nat)
  | end_of_track (time : Int)
deriving DecidableEq, Repr

/-- The sort key comparison of `sorted(events, key=lambda e: e[0])`. -/
def eventLE (a b : TimedEvent) : Bool := a.tick ≤ b.tick

/-- `sorted(events, key=lambda e: e[0])`: Python's `sorted` is a stable
sort on the tick key, modelled by the (stable) `List.mergeSort`. -/
def sortEvents (events : List TimedEvent) : List TimedEvent :=
  events.mergeSort eventLE

/-- The delta-encoding walk of `combine_and_write_midi` (source lines
344-353): `delta = abs_time - prev_time`, cursor advancing to `abs_time`. -/
def deltaWalk : List TimedEvent → Nat → List MidoMsg
  | [], _ => []
  | e :: rest, prev_time =>
    (match e.kind with
     | .note_on => MidoMsg.note_on e.note e.velocity ((e.tick : Int) - (prev_time : Int)) e.channel
     | .note_off => MidoMsg.note_off e.note e.velocity ((e.tick : Int) - (prev_time : Int)) e.channel) ::
    deltaWalk rest e.tick

/-- The fixed channel for each named track in `combine_and_write_midi`. -/
def trackChannel (name : String) : Nat :=
  if name = "Bass" then 1
  else if name = "Harmony" then 2
  else if name = "Melody" then 0
  else 0

/-- One output track of `combine_and_write_midi`: a program change (fixed
program 0 on channel 9 for "Drums", otherwise a random instrument on the
track's channel), the stable-sorted delta-encoded events, and the final
end-of-track marker. -/
def midiTrackFor (r : Rng) (name : String) (events : List TimedEvent) :
    List MidoMsg × Rng :=
  let (opening, r1) :=
    if name = "Drums" then ([MidoMsg.program_change 0 9 0], r)
    else
      let (program_num, ra) := r.choice RANDOM_INSTRUMENTS 0
      ([MidoMsg.program_change program_num (trackChannel name) 0], ra)
  let events_sorted := sortEvents events
  (opening ++ deltaWalk events_sorted 0 ++ [MidoMsg.end_of_track 0], r1)

/-- The in-memory image of the written `MidiFile`. -/
structure MidiFileM where
  ticks_per_beat : Nat
  tracks : List (List MidoMsg)
deriving DecidableEq, Repr

/-- The per-track loop of `combine_and_write_midi` over the tracks dict
(a Python dict iterated in insertion order). -/
def combineTracks (r : Rng) : List (String × List TimedEvent) → List (List MidoMsg) × Rng
  | [] => ([], r)
  | (name, events) :: rest =>
    let (msgs, r1) := midiTrackFor r name events
    let (restTracks, r2) := combineTracks r1 rest
    (msgs :: restTracks, r2)

/-- `combine_and_write_midi` (source lines 315-358) up to the in-memory
file image; `int(60000000 / tempo_bpm)` is the floor of the division and a
`ZeroDivisionError` at tempo 0. -/
def combine_and_write_midi (r : Rng) (tracks_dict : List (String × List TimedEvent))
    (tempo_bpm : Nat) : Except String (MidiFileM × Rng) :=
  match pyFloorDiv 60000000 tempo_bpm with
  | .error e => .error e
  | .ok microseconds_per_beat =>
    let tempo_track : List MidoMsg := [MidoMsg.set_tempo microseconds_per_beat 0]
    let (rest, r1) := combineTracks r tracks_dict
    .ok (⟨TICKS_PER_BEAT, tempo_track :: rest⟩, r1)

/-! ## The main script pipeline -/

/-- The five interval sets the script's melody scale builder chooses from. -/
def scale_mode_choices : List (List Int) :=
  [[0, 2, 4, 5, 7, 9, 11],
   [0, 2, 3, 5, 7, 8, 10],
   [0, 1, 3, 5, 7, 8, 10],
   [0, 2, 4, 6, 7, 9, 11],
   [0, 2, 4, 7, 9]]

/-- The melody scale builder from the main script (source lines 426-441):
two octaves of a random interval set on a random root (octave 3-5), all
octave-0 notes before all octave-1 notes. -/
def buildScaleNotes (r : Rng) : List Int × Rng :=
  let (scale_mode_intervals, r1) := r.choice scale_mode_choices [0, 2, 4, 5, 7, 9, 11]
  let (random_root_name, r2) := r1.choice note_names "C"
  let (random_root_oct, r3) := r2.randint 3 5
  let random_root_midi := note_name_to_midi random_root_name random_root_oct
  (([0, 1] : List Int).flatMap
      (fun oct_shift => scale_mode_intervals.map
        (fun interval => random_root_midi + interval + 12 * oct_shift)),
    r3)

/-- Everything one run produces: the progression, the four generated track
event lists, the melody scale, and the serialized file image. -/
structure RunOutput where
  chords : List (List Int)
  scale_info : String
  drum_track : List TimedEvent
  bass_track : List TimedEvent
  harmony_track : List TimedEvent
  scale_notes : List Int
  melody_track : List TimedEvent
  midi : MidiFileM
deriving DecidableEq, Repr

/-- The main script's generation pipeline (source lines 400-465) given the
three already-parsed scalars: progression, drums, bass, harmony, melody
scale, melody, then the serializer; one chord per measure, so
`beats_per_chord = beats_per_measure` and `num_chords = total_measures`. -/
def runAll (r : Rng) (total_measures beats_per_measure user_tempo : Nat) :
    Except String (RunOutput × Rng) :=
  let ((chords, scale_info), r1) := get_random_chord_progression r total_measures
  let (drum_track, r2) := create_drum_track_chaos r1 total_measures beats_per_measure TICKS_PER_BEAT
  let (bass_track, r3) := create_bass_track_chaos r2 chords beats_per_measure TICKS_PER_BEAT
  match create_harmony_track_chaos r3 chords beats_per_measure TICKS_PER_BEAT with
  | .error e => .error e
  | .ok (harmony_track, r4) =>
    let (scale_notes, r5) := buildScaleNotes r4
    let (melody_track, r6) :=
      create_melody_track_chaos r5 chords scale_notes beats_per_measure TICKS_PER_BEAT
    let tracks := [("Drums", drum_track), ("Bass", bass_track),
                   ("Harmony", harmony_track), ("Melody", melody_track)]
    match combine_and_write_midi r6 tracks user_tempo with
    | .error e => .error e
    | .ok (midi, r7) =>
      .ok (⟨chords, scale_info, drum_track, bass_track, harmony_track,
            scale_notes, melody_track, midi⟩, r7)

/-! ## Facts about the L-system (claim C5) -/

/-- Unfolding of the symbol durations at A and B. -/
theorem symbolDuration_A : symbolDuration 'A' = ⟨1, 1⟩ := rfl

/-- Unfolding of the symbol durations at A and B. -/
theorem symbolDuration_B : symbolDuration 'B' = ⟨5, 10⟩ := rfl

/-- The appending loop of `lsystem_durations` is a map. -/
theorem foldl_append_eq_map {α β : Type} (f : α → β) :
    ∀ (l : List α) (acc : List β),
      l.foldl (fun ds c => ds ++ [f c]) acc = acc ++ l.map f := by
  intro l
  induction l with
  | nil => intro acc; simp
  | cons c t ih => intro acc; simp [ih]

/-- Unfolding of the duration rule at A. -/
theorem durRules_A : durRules 'A' = some ['A', 'B'] := rfl

/-- Unfolding of the duration rule at B. -/
theorem durRules_B : durRules 'B' = some ['A'] := rfl

/-- One rewrite pass on an A/B string grows it by the number of A symbols. -/
theorem lsystemStep_length :
    ∀ s : List Char, (∀ c ∈ s, c = 'A' ∨ c = 'B') →
      (lsystemStep durRules s).length = s.length + s.count 'A' := by
  intro s
  induction s with
  | nil => intro _; rfl
  | cons c t ih =>
    intro h
    have hc := h c (by simp)
    have ht := fun c hc => h c (List.mem_cons_of_mem _ hc)
    have iht := ih ht
    simp only [lsystemStep] at iht
    rcases hc with hA | hB
    · subst hA
      simp only [lsystemStep, List.flatMap_cons, durRules_A, Option.getD_some,
        List.length_append, List.count_cons, List.length_cons, iht]
      simp
      omega
    · subst hB
      simp only [lsystemStep, List.flatMap_cons, durRules_B, Option.getD_some,
        List.length_append, List.count_cons, List.length_cons, iht]
      simp
      omega

/-- After one rewrite pass on an A/B string, the A count is the old length. -/
theorem lsystemStep_countA :
    ∀ s : List Char, (∀ c ∈ s, c = 'A' ∨ c = 'B') →
      (lsystemStep durRules s).count 'A' = s.length := by
  intro s
  induction s with
  | nil => intro _; rfl
  | cons c t ih =>
    intro h
    have hc := h c (by simp)
    have ht := fun c hc => h c (List.mem_cons_of_mem _ hc)
    have iht := ih ht
    simp only [lsystemStep] at iht
    rcases hc with hA | hB
    · subst hA
      simp only [lsystemStep, List.flatMap_cons, durRules_A, Option.getD_some,
        List.count_append, List.length_cons, iht]
      simp [List.count_cons]
      omega
    · subst hB
      simp only [lsystemStep, List.flatMap_cons, durRules_B, Option.getD_some,
        List.count_append, List.length_cons, iht]
      simp [List.count_cons]
      omega

/-- A rewrite pass keeps the string over the alphabet {A, B}. -/
theorem lsystemStep_AB :
    ∀ s : List Char, (∀ c ∈ s, c = 'A' ∨ c = 'B') →
      ∀ c ∈ lsystemStep durRules s, c = 'A' ∨ c = 'B' := by
  intro s hs c hc
  simp only [lsystemStep, List.mem_flatMap] at hc
  obtain ⟨d, hd, hcd⟩ := hc
  rcases hs d hd with h | h <;> subst h <;>
    simp [durRules] at hcd <;> tauto

/-- Every expansion of the duration grammar is a string over {A, B}. -/
theorem l_system_AB :
    ∀ d, ∀ c ∈ l_system ['A'] durRules d, c = 'A' ∨ c = 'B' := by
  intro d
  induction d with
  | zero => intro c hc; simp [l_system] at hc; tauto
  | succ k ih => exact lsystemStep_AB _ ih

/-- Expansion length recurrence, one step. -/
theorem l_system_length_succ (d : Nat) :
    (l_system ['A'] durRules (d + 1)).length =
      (l_system ['A'] durRules d).length + (l_system ['A'] durRules d).count 'A' :=
  lsystemStep_length _ (l_system_AB d)

/-- Expansion A-count, one step. -/
theorem l_system_countA_succ (d : Nat) :
    (l_system ['A'] durRules (d + 1)).count 'A' =
      (l_system ['A'] durRules d).length :=
  lsystemStep_countA _ (l_system_AB d)

/-- Every expansion of the duration grammar is non-empty. -/
theorem l_system_length_pos :
    ∀ d, 0 < (l_system ['A'] durRules d).length := by
  intro d
  induction d with
  | zero => decide
  | succ k ih => rw [l_system_length_succ]; omega

/-- The duration list is the symbol-wise image of the expansion. -/
theorem lsystem_durations_eq_map (depth : Nat) :
    lsystem_durations depth = (l_system ['A'] durRules depth).map symbolDuration := by
  simp [lsystem_durations, foldl_append_eq_map]

/-- Claim C5: the fixed grammar A → "AB", B → "A" from axiom "A" satisfies
the Fibonacci-like length recurrence `length (d+2) = length (d+1) + length d`
with `length 0 = 1` and `length 1 = 2`; each symbol maps to duration 1
(for A) or 1/2 (for B), the duration list being the symbol-wise image of
the expansion; and the cyclic index-modulo-length consumption always reads
an entry of the duration list. -/
theorem claim_C5 :
    (l_system ['A'] durRules 0).length = 1 ∧
    (l_system ['A'] durRules 1).length = 2 ∧
    (∀ d, (l_system ['A'] durRules (d + 2)).length =
        (l_system ['A'] durRules (d + 1)).length +
          (l_system ['A'] durRules d).length) ∧
    (symbolDuration 'A').toQ = 1 ∧ (symbolDuration 'B').toQ = 1 / 2 ∧
    (∀ d, lsystem_durations d =
        (l_system ['A'] durRules d).map symbolDuration) ∧
    (∀ d i, (lsystem_durations d).getD (i % (lsystem_durations d).length) ⟨0, 1⟩
        ∈ lsystem_durations d) := by
  refine ⟨rfl, rfl, ?_, by rw [symbolDuration_A]; norm_num [PyFloat.toQ],
    by rw [symbolDuration_B]; norm_num [PyFloat.toQ], lsystem_durations_eq_map, ?_⟩
  · intro d
    rw [l_system_length_succ (d + 1), l_system_countA_succ d]
  · intro d i
    have hlen : 0 < (lsystem_durations d).length := by
      rw [lsystem_durations_eq_map, List.length_map]
      exact l_system_length_pos d
    have hmod : i % (lsystem_durations d).length < (lsystem_durations d).length :=
      Nat.mod_lt _ hlen
    rw [List.getD_eq_getElem _ _ hmod]
    exact List.getElem_mem hmod

/-! ## Facts about the chord progression (claim C4) -/

/-- One-step unfolding of `build_triads`. -/
theorem build_triads_eq (r : Rng) (b : Int) :
    build_triads r b =
      if (r.random.1.blt ⟨5, 10⟩) then ([b, b + 4, b + 7], r.random.2)
      else ([b, b + 3, b + 7], r.random.2) := rfl

/-- One-step unfolding of the chord loop. -/
theorem chordLoop_succ (r : Rng) (intervals : List Int) (base : Int) (k : Nat) :
    chordLoop r intervals base (k + 1) =
      ((build_triads (r.choice intervals 0).2 (base + (r.choice intervals 0).1)).1 ::
        (chordLoop (build_triads (r.choice intervals 0).2
          (base + (r.choice intervals 0).1)).2 intervals base k).1,
       (chordLoop (build_triads (r.choice intervals 0).2
          (base + (r.choice intervals 0).1)).2 intervals base k).2) := rfl

/-- The chord loop returns exactly as many triads as requested. -/
theorem chordLoop_length (intervals : List Int) (base : Int) :
    ∀ (n : Nat) (r : Rng), (chordLoop r intervals base n).1.length = n := by
  intro n
  induction n with
  | zero => intro r; rfl
  | succ k ih => intro r; simp only [chordLoop_succ, List.length_cons, ih]

/-- `build_triads` yields the major or the minor triad on its root. -/
theorem build_triads_shape (r : Rng) (b : Int) :
    (build_triads r b).1 = [b, b + 4, b + 7] ∨
      (build_triads r b).1 = [b, b + 3, b + 7] := by
  rw [build_triads_eq]
  by_cases h : (r.random.1.blt ⟨5, 10⟩) = true
  · left; rw [if_pos h]
  · right; rw [if_neg h]

/-- Every chord the loop produces is a major or minor triad on some root. -/
theorem chordLoop_shape (intervals : List Int) (base : Int) :
    ∀ (n : Nat) (r : Rng), ∀ t ∈ (chordLoop r intervals base n).1,
      ∃ root : Int, t = [root, root + 4, root + 7] ∨
        t = [root, root + 3, root + 7] := by
  intro n
  induction n with
  | zero => intro r t ht; simp [chordLoop] at ht
  | succ k ih =>
    intro r t ht
    rw [chordLoop_succ] at ht
    rcases List.mem_cons.mp ht with h | h
    · subst h
      exact ⟨base + (r.choice intervals 0).1, build_triads_shape _ _⟩
    · exact ih _ t h

/-- Indexing the note-name table never yields the empty string. -/
theorem getD_note_names_ne (i : Nat) : note_names.getD i "C" ≠ "" := by
  by_cases h : i < note_names.length
  · rw [List.getD_eq_getElem _ _ h]
    have hm : note_names[i] ∈ note_names := List.getElem_mem h
    have hall : ∀ s ∈ note_names, s ≠ "" := by decide
    exact hall _ hm
  · rw [List.getD_eq_default _ _ (Nat.le_of_not_lt h)]
    decide

/-- The progression label is never the empty string. -/
theorem progression_label_ne (r : Rng) (C : Nat) :
    (get_random_chord_progression r C).1.2 ≠ "" := by
  simp only [get_random_chord_progression]
  intro hlabel
  have h0 : ((r.choice note_names "C").1).length = 0 := by
    have := congrArg String.length hlabel
    simp [String.length_append] at this
    omega
  have hne : (r.choice note_names "C").1 ≠ "" := by
    simp only [Rng.choice]
    exact getD_note_names_ne _
  have : (r.choice note_names "C").1 = "" := by
    cases hsc : (r.choice note_names "C").1 with
    | mk data =>
      cases data with
      | nil => rfl
      | cons c cs => rw [hsc] at h0; simp [String.length] at h0
  exact hne this

/-- Claim C4: for every chord count C the progression generator returns
exactly C triads, each the ordered major triad (root, root+4, root+7) or
minor triad (root, root+3, root+7) on some root — hence with pitches in
non-decreasing order — together with a non-empty label. -/
theorem claim_C4 (r : Rng) (C : Nat) :
    ((get_random_chord_progression r C).1.1.length = C) ∧
    (∀ t ∈ (get_random_chord_progression r C).1.1,
      (∃ root : Int, t = [root, root + 4, root + 7] ∨
        t = [root, root + 3, root + 7]) ∧ t.Chain' (· ≤ ·)) ∧
    (get_random_chord_progression r C).1.2 ≠ "" := by
  refine ⟨?_, ?_, ?_⟩
  · simp [get_random_chord_progression, chordLoop_length]
  · intro t ht
    simp only [get_random_chord_progression] at ht
    have hsh := chordLoop_shape _ _ _ _ t ht
    refine ⟨hsh, ?_⟩
    obtain ⟨root, h | h⟩ := hsh <;> subst h <;> simp [List.chain'_cons]
  · exact progression_label_ne r C

/-! ## Empty progression behaviour (claim C8) -/

/-- Claim C8: a chord count of 0 gives an empty yet valid progression
(empty chord list, non-empty label), and on the empty chord list the Bass,
Harmony and Melody generators return empty event lists without error (the
harmony generator returns `.ok`, its division-by-zero branch unreached). -/
theorem claim_C8 (r : Rng) (scale_notes : List Int)
    (beats_per_chord ticks_per_beat : Nat) :
    (create_bass_track_chaos r [] beats_per_chord ticks_per_beat).1 = [] ∧
    create_harmony_track_chaos r [] beats_per_chord ticks_per_beat = .ok ([], r) ∧
    (create_melody_track_chaos r [] scale_notes beats_per_chord ticks_per_beat).1 = [] ∧
    (get_random_chord_progression r 0).1.1 = [] ∧
    (get_random_chord_progression r 0).1.2 ≠ "" := by
  refine ⟨rfl, rfl, ?_, ?_, progression_label_ne r 0⟩
  · simp [create_melody_track_chaos, melodyChords]
  · simp [get_random_chord_progression, chordLoop]

/-! ## Zero-count guards (claim C6) -/

/-- The unguarded harmony division succeeds on any non-zero press count. -/
theorem harmony_press_length_ok (L : Nat) {p : Nat} (hp : p ≠ 0) :
    harmony_press_length L p = .ok (L / p) := by
  simp [harmony_press_length, pyFloorDiv, hp]

/-- `random.randint(lo, hi)` in this model always returns at least `lo`. -/
theorem randint_fst_le (r : Rng) (lo hi : Nat) : lo ≤ (r.randint lo hi).1 := by
  simp [Rng.randint, Rng.next]

/-- `random.randint(lo, hi)` in this model is at most `hi` when `lo ≤ hi`. -/
theorem randint_fst_le_hi (r : Rng) {lo hi : Nat} (h : lo ≤ hi) :
    (r.randint lo hi).1 ≤ hi := by
  simp only [Rng.randint, Rng.next]
  have hmod : r.stream r.idx % (hi + 1 - lo) < hi + 1 - lo := Nat.mod_lt _ (by omega)
  omega

/-- One harmony chord never raises: its press count is drawn in [1,3]. -/
theorem harmonyChord_ok (r : Rng) (chord : List Int) (L t : Nat) :
    ∃ evs r1, harmonyChord r chord L t = .ok (evs, r1) := by
  simp only [harmonyChord]
  rcases hr : r.randint 1 3 with ⟨presses, r1⟩
  have hp : presses ≠ 0 := by
    have h1 : 1 ≤ (r.randint 1 3).1 := randint_fst_le r 1 3
    rw [hr] at h1
    omega
  rw [harmony_press_length_ok L hp]
  exact ⟨_, _, rfl⟩

/-- The harmony chord loop never raises. -/
theorem harmonyChords_ok (L : Nat) :
    ∀ (chords : List (List Int)) (r : Rng) (t : Nat),
      ∃ evs r1, harmonyChords r L chords t = .ok (evs, r1) := by
  intro chords
  induction chords with
  | nil => intro r t; exact ⟨[], r, rfl⟩
  | cons chord rest ih =>
    intro r t
    obtain ⟨evs, r1, h1⟩ := harmonyChord_ok r chord L t
    obtain ⟨restEvs, r2, h2⟩ := ih r1 (t + L)
    refine ⟨evs ++ restEvs, r2, ?_⟩
    simp [harmonyChords, h1, h2]

/-- The harmony generator never raises on any input. -/
theorem create_harmony_track_chaos_ok (r : Rng) (chords : List (List Int))
    (beats_per_chord ticks_per_beat : Nat) :
    ∃ evs r1, create_harmony_track_chaos r chords beats_per_chord ticks_per_beat =
      .ok (evs, r1) :=
  harmonyChords_ok _ chords r 0

/-- Counterexample to claim C6 as stated: the Harmony generator's division
`chord_length_ticks // presses` is not guarded — at a zero press count it
raises `ZeroDivisionError` instead of treating the chord as one undivided
slot of 1920 ticks. -/
theorem claim_C6_counterexample :
    harmony_press_length 1920 0 = .error "ZeroDivisionError" ∧
    harmony_press_length 1920 0 ≠ .ok 1920 := by
  exact ⟨rfl, by simp [harmony_press_length, pyFloorDiv]⟩

/-- Claim C6 (amended): the Bass and Melody generators guard a zero count,
treating it as one undivided slot; the Harmony generator divides without a
guard (a zero press count would be a division-by-zero error), but its press
count is always drawn from [1,3], so it never fails on any input. -/
theorem claim_C6 (chord_length_ticks : Nat) :
    bass_sub_tick_length chord_length_ticks 0 = chord_length_ticks ∧
    melody_sub_tick chord_length_ticks 0 = chord_length_ticks ∧
    harmony_press_length chord_length_ticks 0 = .error "ZeroDivisionError" ∧
    (∀ (r : Rng) (chords : List (List Int)) (b t : Nat),
      ∃ evs r1, create_harmony_track_chaos r chords b t = .ok (evs, r1)) :=
  ⟨rfl, rfl, rfl, fun r chords b t => create_harmony_track_chaos_ok r chords b t⟩

/-! ## Note pairing (claim C3) -/

/-- The data of one `add_note` call. -/
structure NoteSpec where
  start : Nat
  dur : Nat
  note : Int
  velocity : Nat
  channel : Nat
deriving DecidableEq, Repr

/-- The two events `add_note` appends for one note. -/
def noteEvents (n : NoteSpec) : List TimedEvent :=
  add_note [] n.note n.velocity n.start n.dur n.channel

/-- An event list is a run of `add_note` pairs: each `note_on` at tick `t`
with duration `d` is immediately followed by its unique `note_off` at tick
`t + d` carrying the same pitch, velocity and channel. -/
def PairedEvents (evs : List TimedEvent) : Prop :=
  ∃ ns : List NoteSpec, evs = ns.flatMap noteEvents

/-- Adjacent-pair reading of a paired event list. -/
def pairedUp : List TimedEvent → Prop
  | [] => True
  | [_] => False
  | e1 :: e2 :: rest =>
    e1.kind = .note_on ∧ e2.kind = .note_off ∧ e2.note = e1.note ∧
      e2.velocity = e1.velocity ∧ e2.channel = e1.channel ∧
      e1.tick ≤ e2.tick ∧ pairedUp rest

theorem PairedEvents_nil : PairedEvents [] := ⟨[], rfl⟩

theorem PairedEvents_append {a b : List TimedEvent}
    (ha : PairedEvents a) (hb : PairedEvents b) : PairedEvents (a ++ b) := by
  obtain ⟨la, rfl⟩ := ha
  obtain ⟨lb, rfl⟩ := hb
  exact ⟨la ++ lb, by simp⟩

theorem PairedEvents_add_note (note : Int) (velocity : Nat)
    (start_tick duration_ticks channel : Nat) :
    PairedEvents (add_note [] note velocity start_tick duration_ticks channel) := by
  exact ⟨[⟨start_tick, duration_ticks, note, velocity, channel⟩], by simp [noteEvents]⟩

/-- Every paired event list reads as adjacent on/off pairs with matching
fields and non-decreasing ticks within each pair. -/
theorem PairedEvents.pairedUp {evs : List TimedEvent} (h : PairedEvents evs) :
    pairedUp evs := by
  obtain ⟨ns, rfl⟩ := h
  induction ns with
  | nil => trivial
  | cons n rest ih =>
    simp only [List.flatMap_cons]
    refine ⟨rfl, rfl, rfl, rfl, rfl, by simp [noteEvents, add_note], ih⟩

theorem drumHits_paired (measure_start beats_per_measure ticks_per_beat : Nat) :
    ∀ (k : Nat) (r : Rng),
      PairedEvents (drumHits r measure_start beats_per_measure ticks_per_beat k).1 := by
  intro k
  induction k with
  | zero => intro r; exact PairedEvents_nil
  | succ k ih =>
    intro r
    simp only [drumHits]
    exact PairedEvents_append (PairedEvents_add_note _ _ _ _ _) (ih _)

theorem drumMeasure_paired (r : Rng) (measure_idx beats_per_measure ticks_per_beat : Nat) :
    PairedEvents (drumMeasure r measure_idx beats_per_measure ticks_per_beat).1 := by
  simp only [drumMeasure]
  refine PairedEvents_append ?_ (drumHits_paired _ _ _ _ _)
  by_cases h : beats_per_measure = 4 <;> simp only [h, if_true, if_false, reduceIte]
  · exact PairedEvents_append (PairedEvents_add_note _ _ _ _ _) (PairedEvents_add_note _ _ _ _ _)
  · exact PairedEvents_nil

theorem drumMeasures_paired (beats_per_measure ticks_per_beat : Nat) :
    ∀ (k i : Nat) (r : Rng),
      PairedEvents (drumMeasures r beats_per_measure ticks_per_beat k i).1 := by
  intro k
  induction k with
  | zero => intro i r; exact PairedEvents_nil
  | succ k ih =>
    intro i r
    simp only [drumMeasures]
    exact PairedEvents_append (drumMeasure_paired _ _ _ _) (ih _ _)

theorem create_drum_track_chaos_paired (r : Rng)
    (num_measures beats_per_measure ticks_per_beat : Nat) :
    PairedEvents (create_drum_track_chaos r num_measures beats_per_measure ticks_per_beat).1 :=
  drumMeasures_paired _ _ _ _ _

theorem bassSlots_paired (chord_root chord_fifth : Int) (sub_tick_length : Nat) :
    ∀ (k t : Nat) (r : Rng),
      PairedEvents (bassSlots r chord_root chord_fifth sub_tick_length k t).1 := by
  intro k
  induction k with
  | zero => intro t r; exact PairedEvents_nil
  | succ k ih =>
    intro t r
    simp only [bassSlots]
    exact PairedEvents_append (PairedEvents_add_note _ _ _ _ _) (ih _ _)

theorem bassChords_paired (chord_length_ticks : Nat) :
    ∀ (chords : List (List Int)) (t : Nat) (r : Rng),
      PairedEvents (bassChords r chord_length_ticks chords t).1 := by
  intro chords
  induction chords with
  | nil => intro t r; exact PairedEvents_nil
  | cons chord rest ih =>
    intro t r
    simp only [bassChords, bassChord]
    exact PairedEvents_append (bassSlots_paired _ _ _ _ _ _) (ih _ _)

theorem create_bass_track_chaos_paired (r : Rng) (chords : List (List Int))
    (beats_per_chord ticks_per_beat : Nat) :
    PairedEvents (create_bass_track_chaos r chords beats_per_chord ticks_per_beat).1 :=
  bassChords_paired _ chords _ _

theorem harmonyPressNotes_paired (chord_len press_length : Nat) :
    ∀ (notes : List Int) (t : Nat) (r : Rng),
      PairedEvents (harmonyPressNotes r chord_len press_length notes t).1 := by
  intro notes
  induction notes with
  | nil => intro t r; exact PairedEvents_nil
  | cons note rest ih =>
    intro t r
    simp only [harmonyPressNotes]
    exact PairedEvents_append (PairedEvents_add_note _ _ _ _ _) (ih _ _)

theorem harmonyPresses_paired (chord : List Int) (press_length : Nat) :
    ∀ (k t : Nat) (r : Rng),
      PairedEvents (harmonyPresses r chord press_length k t).1 := by
  intro k
  induction k with
  | zero => intro t r; exact PairedEvents_nil
  | succ k ih =>
    intro t r
    simp only [harmonyPresses]
    exact PairedEvents_append (harmonyPressNotes_paired _ _ _ _ _) (ih _ _)

/-- Closed form of one harmony chord (the division always succeeds). -/
theorem harmonyChord_eq (r : Rng) (chord : List Int) (L t : Nat) :
    harmonyChord r chord L t =
      .ok ((harmonyPresses (r.randint 1 3).2 chord (L / (r.randint 1 3).1)
              (r.randint 1 3).1 t).1,
           (harmonyPresses (r.randint 1 3).2 chord (L / (r.randint 1 3).1)
              (r.randint 1 3).1 t).2.2) := by
  simp only [harmonyChord]
  rcases hr : r.randint 1 3 with ⟨presses, r1⟩
  have hp : presses ≠ 0 := by
    have h1 : 1 ≤ (r.randint 1 3).1 := randint_fst_le r 1 3
    rw [hr] at h1
    omega
  rw [harmony_press_length_ok L hp]

theorem harmonyChords_paired (L : Nat) :
    ∀ (chords : List (List Int)) (t : Nat) (r : Rng) (evs : List TimedEvent) (r1 : Rng),
      harmonyChords r L chords t = .ok (evs, r1) → PairedEvents evs := by
  intro chords
  induction chords with
  | nil =>
    intro t r evs r1 h
    simp only [harmonyChords] at h
    cases h
    exact PairedEvents_nil
  | cons chord rest ih =>
    intro t r evs r1 h
    simp only [harmonyChords, harmonyChord_eq] at h
    rcases h2 : harmonyChords (harmonyPresses (r.randint 1 3).2 chord
        (L / (r.randint 1 3).1) (r.randint 1 3).1 t).2.2 L rest (t + L) with e | ⟨restEvs, r2⟩
    · rw [h2] at h; cases h
    · rw [h2] at h
      cases h
      exact PairedEvents_append (harmonyPresses_paired _ _ _ _ _) (ih _ _ _ _ h2)

theorem create_harmony_track_chaos_paired (r : Rng) (chords : List (List Int))
    (beats_per_chord ticks_per_beat : Nat) (evs : List TimedEvent) (r1 : Rng)
    (h : create_harmony_track_chaos r chords beats_per_chord ticks_per_beat = .ok (evs, r1)) :
    PairedEvents evs :=
  harmonyChords_paired _ chords _ _ _ _ h

theorem melodyNote_paired (r : Rng) (phrase : List Nat) (scale_notes : List Int)
    (durations_list : List PyFloat) (lsys_idx sub_tick ticks_per_beat current_time : Nat) :
    PairedEvents (melodyNote r phrase scale_notes durations_list lsys_idx sub_tick
      ticks_per_beat current_time).1 := by
  simp only [melodyNote]
  exact PairedEvents_add_note _ _ _ _ _

theorem melodyNotes_paired (phrase : List Nat) (scale_notes : List Int)
    (durations_list : List PyFloat) (sub_tick ticks_per_beat : Nat) :
    ∀ (k li ct : Nat) (r : Rng),
      PairedEvents (melodyNotes r phrase scale_notes durations_list sub_tick
        ticks_per_beat k li ct).1 := by
  intro k
  induction k with
  | zero => intro li ct r; exact PairedEvents_nil
  | succ k ih =>
    intro li ct r
    simp only [melodyNotes]
    exact PairedEvents_append (melodyNote_paired _ _ _ _ _ _ _ _) (ih _ _ _)

theorem melodyChords_paired (phrase : List Nat) (scale_notes : List Int)
    (durations_list : List PyFloat) (chord_length_ticks ticks_per_beat : Nat) :
    ∀ (chords : List (List Int)) (li ct : Nat) (r : Rng),
      PairedEvents (melodyChords r phrase scale_notes durations_list chord_length_ticks
        ticks_per_beat chords li ct).1 := by
  intro chords
  induction chords with
  | nil => intro li ct r; exact PairedEvents_nil
  | cons chord rest ih =>
    intro li ct r
    simp only [melodyChords]
    exact PairedEvents_append (melodyNotes_paired _ _ _ _ _ _ _ _ _) (ih _ _ _)

theorem create_melody_track_chaos_paired (r : Rng) (chords : List (List Int))
    (scale_notes : List Int) (beats_per_chord ticks_per_beat : Nat) :
    PairedEvents (create_melody_track_chaos r chords scale_notes beats_per_chord
      ticks_per_beat).1 := by
  simp only [create_melody_track_chaos]
  exact melodyChords_paired _ _ _ _ _ _ _ _ _

/-- Claim C3: every event list produced by any of the four generators is a
concatenation of `add_note` pairs — each `note_on` at tick t with duration
d has exactly one matching `note_off` at tick t + d with the same pitch,
velocity and channel (the adjacent pair in the decomposition), and within
each pair the `note_off` tick is at least the `note_on` tick. -/
theorem claim_C3 (r1 r2 r3 r4 : Rng) (chords : List (List Int))
    (scale_notes : List Int)
    (num_measures beats_per_chord ticks_per_beat : Nat) :
    (PairedEvents (create_drum_track_chaos r1 num_measures beats_per_chord ticks_per_beat).1 ∧
     PairedEvents (create_bass_track_chaos r2 chords beats_per_chord ticks_per_beat).1 ∧
     (∀ evs rf, create_harmony_track_chaos r3 chords beats_per_chord ticks_per_beat =
        .ok (evs, rf) → PairedEvents evs) ∧
     PairedEvents (create_melody_track_chaos r4 chords scale_notes beats_per_chord
        ticks_per_beat).1) ∧
    (∀ evs : List TimedEvent, PairedEvents evs → pairedUp evs) :=
  ⟨⟨create_drum_track_chaos_paired _ _ _ _,
    create_bass_track_chaos_paired _ _ _ _,
    fun _evs _rf h => create_harmony_track_chaos_paired _ _ _ _ _ _ h,
    create_melody_track_chaos_paired _ _ _ _ _⟩,
   fun _ h => h.pairedUp⟩

/-! ## Tick spans of the Bass and Harmony tracks (claim C1) -/

/-- One-step unfolding of the bass slot loop. -/
theorem bassSlots_succ (r : Rng) (cr cf : Int) (sl k t : Nat) :
    (bassSlots r cr cf sl (k + 1) t).1 =
      add_note [] (bassNote r cr cf).1 ((bassNote r cr cf).2.randint 50 100).1 t sl 1 ++
        (bassSlots ((bassNote r cr cf).2.randint 50 100).2 cr cf sl k (t + sl)).1 := rfl

/-- Ticks of the bass slot loop stay within the slot span. -/
theorem bassSlots_tick_bound (cr cf : Int) (sl : Nat) :
    ∀ (k t : Nat) (r : Rng), ∀ e ∈ (bassSlots r cr cf sl k t).1,
      t ≤ e.tick ∧ e.tick ≤ t + k * sl := by
  intro k
  induction k with
  | zero => intro t r e he; simp [bassSlots] at he
  | succ k ih =>
    intro t r e he
    have hmul : (k + 1) * sl = k * sl + sl := Nat.succ_mul k sl
    rw [bassSlots_succ] at he
    simp only [add_note, List.nil_append, List.mem_append, List.mem_cons,
      List.mem_singleton] at he
    rcases he with (h | h | h) | h
    · subst h; simp
    · subst h; simp; omega
    · exact absurd h (by simp)
    · have := ih (t + sl) _ e h
      omega

/-- The bass slot loop ends with an event exactly at the end of its span. -/
theorem bassSlots_reach (cr cf : Int) (sl : Nat) :
    ∀ (k t : Nat) (r : Rng), ∃ e ∈ (bassSlots r cr cf sl (k + 1) t).1,
      e.tick = t + (k + 1) * sl := by
  intro k
  induction k with
  | zero =>
    intro t r
    refine ⟨⟨t + sl, .note_off, (bassNote r cr cf).1,
      ((bassNote r cr cf).2.randint 50 100).1, 1⟩, ?_, by simp⟩
    rw [bassSlots_succ]
    simp [bassSlots, add_note]
  | succ k ih =>
    intro t r
    obtain ⟨e, he, hticks⟩ := ih (t + sl)
      ((bassNote r cr cf).2.randint 50 100).2
    refine ⟨e, ?_, ?_⟩
    · rw [bassSlots_succ]
      exact List.mem_append_right _ he
    · rw [hticks, Nat.succ_mul (k + 1) sl]
      omega

/-- Divisors 1..5 all divide 480, hence any `beats * 480`. -/
theorem subdivs_dvd (beats : Nat) :
    ∀ s, 1 ≤ s → s ≤ 5 → s ∣ beats * 480 := by
  intro s h1 h5
  have h480 : s ∣ 480 := by interval_cases s <;> decide
  exact Dvd.dvd.mul_left h480 beats

/-- Ticks of one bass chord stay within the chord's span. -/
theorem bassChord_tick_bound (r : Rng) (chord : List Int) (L t : Nat) :
    ∀ e ∈ (bassChord r chord L t).1, t ≤ e.tick ∧ e.tick ≤ t + L := by
  intro e he
  simp only [bassChord] at he
  rcases hs : r.randint 1 5 with ⟨subdivs, r1⟩
  rw [hs] at he
  have h1 : 1 ≤ subdivs := by
    have := randint_fst_le r 1 5
    rw [hs] at this
    exact this
  have hsl : bass_sub_tick_length L subdivs = L / subdivs := by
    simp [bass_sub_tick_length, Nat.lt_of_lt_of_le Nat.zero_lt_one h1]
  rw [hsl] at he
  have hb := bassSlots_tick_bound _ _ _ subdivs t r1 e he
  have hle : subdivs * (L / subdivs) ≤ L := by
    calc subdivs * (L / subdivs) = L / subdivs * subdivs := Nat.mul_comm _ _
    _ ≤ L := Nat.div_mul_le_self L subdivs
  omega

/-- One bass chord always ends with an event exactly at the chord's end
when the subdivision count divides the chord length. -/
theorem bassChord_reach (r : Rng) (chord : List Int) (L t : Nat)
    (hdvd : ∀ s, 1 ≤ s → s ≤ 5 → s ∣ L) :
    ∃ e ∈ (bassChord r chord L t).1, e.tick = t + L := by
  simp only [bassChord]
  rcases hs : r.randint 1 5 with ⟨subdivs, r1⟩
  have h1 : 1 ≤ subdivs := by
    have := randint_fst_le r 1 5
    rw [hs] at this
    exact this
  have h5 : subdivs ≤ 5 := by
    have := randint_fst_le_hi r (by omega : (1:Nat) ≤ 5)
    rw [hs] at this
    exact this
  have hsl : bass_sub_tick_length L subdivs = L / subdivs := by
    simp [bass_sub_tick_length, Nat.lt_of_lt_of_le Nat.zero_lt_one h1]
  rw [hsl]
  obtain ⟨k, hk⟩ : ∃ k, subdivs = k + 1 := ⟨subdivs - 1, by omega⟩
  subst hk
  obtain ⟨e, he, hticks⟩ := bassSlots_reach (chord.getD 0 0) (chord.getD 2 0)
    (L / (k + 1)) k t r1
  refine ⟨e, he, ?_⟩
  rw [hticks, Nat.mul_div_cancel' (hdvd (k + 1) h1 h5)]

/-- Ticks of the bass chord loop stay within the total span. -/
theorem bassChords_tick_bound (L : Nat) :
    ∀ (chords : List (List Int)) (t : Nat) (r : Rng),
      ∀ e ∈ (bassChords r L chords t).1,
        t ≤ e.tick ∧ e.tick ≤ t + chords.length * L := by
  intro chords
  induction chords with
  | nil => intro t r e he; simp [bassChords] at he
  | cons chord rest ih =>
    intro t r e he
    have hmul : (rest.length + 1) * L = rest.length * L + L := Nat.succ_mul _ _
    simp only [bassChords, List.mem_append] at he
    simp only [List.length_cons]
    rcases he with h | h
    · have := bassChord_tick_bound r chord L t e h
      omega
    · have := ih (t + L) _ e h
      omega

/-- On a non-empty chord list the bass chord loop produces an event exactly
at the end of the total span, provided 1..5 divide the chord length. -/
theorem bassChords_reach (L : Nat) (hdvd : ∀ s, 1 ≤ s → s ≤ 5 → s ∣ L) :
    ∀ (chords : List (List Int)), chords ≠ [] → ∀ (t : Nat) (r : Rng),
      ∃ e ∈ (bassChords r L chords t).1, e.tick = t + chords.length * L := by
  intro chords
  induction chords with
  | nil => intro h; exact absurd rfl h
  | cons chord rest ih =>
    intro _ t r
    rcases hrest : rest with _ | ⟨c2, rest2⟩
    · obtain ⟨e, he, hticks⟩ := bassChord_reach r chord L t hdvd
      refine ⟨e, ?_, by simpa using hticks⟩
      simp only [bassChords, List.mem_append]
      exact Or.inl he
    · rw [← hrest]
      obtain ⟨e, he, hticks⟩ := ih (by rw [hrest]; simp) (t + L)
        (bassChord r chord L t).2
      refine ⟨e, ?_, ?_⟩
      · simp only [bassChords, List.mem_append]
        exact Or.inr he
      · rw [hticks, List.length_cons, Nat.succ_mul]
        omega

/-- Swapping two positions preserves the length of a list. -/
theorem listSwap_length {α : Type} [Inhabited α] (l : List α) (i j : Nat) :
    (listSwap l i j).length = l.length := by
  simp [listSwap]

/-- The Fisher-Yates passes preserve the length of a list. -/
theorem shuffleAux_length {α : Type} [Inhabited α] :
    ∀ (i : Nat) (l : List α) (r : Rng), (r.shuffleAux l i).1.length = l.length := by
  intro i
  induction i with
  | zero => intro l r; rfl
  | succ i ih =>
    intro l r
    simp only [Rng.shuffleAux, Rng.shuffleStep]
    rw [ih]
    exact listSwap_length _ _ _

/-- `random.shuffle` preserves the length of a list. -/
theorem shuffle_length {α : Type} [Inhabited α] (r : Rng) (l : List α) :
    (r.shuffle l).1.length = l.length :=
  shuffleAux_length _ l r

/-- A list-length many equal sub-notes never overrun the press length. -/
theorem length_mul_div_le (m pl : Nat) : m * (pl / m) ≤ pl := by
  rcases Nat.eq_zero_or_pos m with h0 | hpos
  · rw [h0]; simp
  · calc m * (pl / m) = pl / m * m := Nat.mul_comm _ _
      _ ≤ pl := Nat.div_mul_le_self _ _

/-- The notes of one harmony press advance the cursor by exactly
`length * note_dur` and all their ticks stay within that advance. -/
theorem harmonyPressNotes_spec (cl pl : Nat) :
    ∀ (notes : List Int) (t : Nat) (r : Rng),
      (harmonyPressNotes r cl pl notes t).2.1 = t + notes.length * (pl / cl) ∧
      ∀ e ∈ (harmonyPressNotes r cl pl notes t).1,
        t ≤ e.tick ∧ e.tick ≤ t + notes.length * (pl / cl) := by
  intro notes
  induction notes with
  | nil => intro t r; exact ⟨by simp [harmonyPressNotes], by simp [harmonyPressNotes]⟩
  | cons note rest ih =>
    intro t r
    have hmul : (rest.length + 1) * (pl / cl) = rest.length * (pl / cl) + pl / cl :=
      Nat.succ_mul _ _
    obtain ⟨ihp, ihb⟩ := ih (t + pl / cl) (r.randint 40 90).2
    generalize hnd : pl / cl = nd at *
    constructor
    · simp only [harmonyPressNotes, List.length_cons, hnd]
      rw [ihp]
      omega
    · intro e he
      simp only [harmonyPressNotes, add_note, List.nil_append, List.mem_append,
        List.mem_cons, List.mem_singleton, List.length_cons, hnd] at he ⊢
      rcases he with (h | h | h) | h
      · subst h; simp
      · subst h; simp; omega
      · exact absurd h (by simp)
      · have := ihb e h
        omega

/-- One-step unfolding of the harmony press loop. -/
theorem harmonyPresses_succ (r : Rng) (chord : List Int) (pl k t : Nat) :
    harmonyPresses r chord pl (k + 1) t =
      ((harmonyPressNotes (r.shuffle chord).2 (r.shuffle chord).1.length pl
          (r.shuffle chord).1 t).1 ++
        (harmonyPresses (harmonyPressNotes (r.shuffle chord).2 (r.shuffle chord).1.length pl
          (r.shuffle chord).1 t).2.2 chord pl k
          (harmonyPressNotes (r.shuffle chord).2 (r.shuffle chord).1.length pl
            (r.shuffle chord).1 t).2.1).1,
       (harmonyPresses (harmonyPressNotes (r.shuffle chord).2 (r.shuffle chord).1.length pl
          (r.shuffle chord).1 t).2.2 chord pl k
          (harmonyPressNotes (r.shuffle chord).2 (r.shuffle chord).1.length pl
            (r.shuffle chord).1 t).2.1).2.1,
       (harmonyPresses (harmonyPressNotes (r.shuffle chord).2 (r.shuffle chord).1.length pl
          (r.shuffle chord).1 t).2.2 chord pl k
          (harmonyPressNotes (r.shuffle chord).2 (r.shuffle chord).1.length pl
            (r.shuffle chord).1 t).2.1).2.2) := rfl

/-- The presses of one harmony chord keep the cursor and all ticks within
`k * press_length` of the starting cursor. -/
theorem harmonyPresses_spec (chord : List Int) (pl : Nat) :
    ∀ (k t : Nat) (r : Rng),
      (t ≤ (harmonyPresses r chord pl k t).2.1 ∧
        (harmonyPresses r chord pl k t).2.1 ≤ t + k * pl) ∧
      ∀ e ∈ (harmonyPresses r chord pl k t).1,
        t ≤ e.tick ∧ e.tick ≤ t + k * pl := by
  intro k
  induction k with
  | zero =>
    intro t r
    exact ⟨⟨le_refl t, by simp [harmonyPresses]⟩, by simp [harmonyPresses]⟩
  | succ k ih =>
    intro t r
    have hmul : (k + 1) * pl = k * pl + pl := Nat.succ_mul _ _
    obtain ⟨hnp, hnb⟩ := harmonyPressNotes_spec ((r.shuffle chord).1.length) pl
      ((r.shuffle chord).1) t (r.shuffle chord).2
    have hlen : (r.shuffle chord).1.length * (pl / (r.shuffle chord).1.length) ≤ pl :=
      length_mul_div_le _ _
    obtain ⟨⟨ih1, ih2⟩, ihb⟩ := ih
      ((harmonyPressNotes (r.shuffle chord).2 (r.shuffle chord).1.length pl
        (r.shuffle chord).1 t).2.1)
      ((harmonyPressNotes (r.shuffle chord).2 (r.shuffle chord).1.length pl
        (r.shuffle chord).1 t).2.2)
    rw [harmonyPresses_succ]
    dsimp only
    refine ⟨⟨?_, ?_⟩, ?_⟩
    · omega
    · omega
    · intro e he
      rcases List.mem_append.mp he with h | h
      · have := hnb e h
        omega
      · have := ihb e h
        omega

/-- All ticks of one harmony chord stay within the chord's span. -/
theorem harmonyChord_tick_bound (r : Rng) (chord : List Int) (L t : Nat)
    (evs : List TimedEvent) (rf : Rng)
    (h : harmonyChord r chord L t = .ok (evs, rf)) :
    ∀ e ∈ evs, t ≤ e.tick ∧ e.tick ≤ t + L := by
  rw [harmonyChord_eq] at h
  intro e he
  have hevs : evs = (harmonyPresses (r.randint 1 3).2 chord (L / (r.randint 1 3).1)
      (r.randint 1 3).1 t).1 := by
    cases h
    rfl
  rw [hevs] at he
  have hb := (harmonyPresses_spec chord (L / (r.randint 1 3).1)
    (r.randint 1 3).1 t (r.randint 1 3).2).2 e he
  have hle : (r.randint 1 3).1 * (L / (r.randint 1 3).1) ≤ L := length_mul_div_le _ _
  omega

/-- All ticks of the harmony chord loop stay within the total span. -/
theorem harmonyChords_tick_bound (L : Nat) :
    ∀ (chords : List (List Int)) (t : Nat) (r : Rng) (evs : List TimedEvent) (rf : Rng),
      harmonyChords r L chords t = .ok (evs, rf) →
      ∀ e ∈ evs, t ≤ e.tick ∧ e.tick ≤ t + chords.length * L := by
  intro chords
  induction chords with
  | nil =>
    intro t r evs rf h e he
    simp only [harmonyChords] at h
    cases h
    simp at he
  | cons chord rest ih =>
    intro t r evs rf h e he
    have hmul : (rest.length + 1) * L = rest.length * L + L := Nat.succ_mul _ _
    simp only [harmonyChords, harmonyChord_eq] at h
    rcases h2 : harmonyChords (harmonyPresses (r.randint 1 3).2 chord
        (L / (r.randint 1 3).1) (r.randint 1 3).1 t).2.2 L rest (t + L) with er | p2
    · rw [h2] at h; cases h
    · rw [h2] at h
      rcases p2 with ⟨restEvs, r2⟩
      cases h
      simp only [List.length_cons]
      rcases List.mem_append.mp he with hm | hm
      · have hb := (harmonyPresses_spec chord (L / (r.randint 1 3).1)
          (r.randint 1 3).1 t (r.randint 1 3).2).2 e hm
        have hle : (r.randint 1 3).1 * (L / (r.randint 1 3).1) ≤ L :=
          length_mul_div_le _ _
        omega
      · have := ih (t + L) _ restEvs _ h2 e hm
        omega

/-- Claim C1: the Bass and Harmony tracks span exactly the sum of the chord
durations with no drift — every event tick is at most
`chordCount * beatsPerChord * TICKS_PER_BEAT`; within one chord the
floor-divided slots sum to at most the chord duration; and since every
subdivision count in [1,5] divides `beats * 480`, the Bass track actually
ends exactly at the total, in particular at 4 × 4 × 480 = 7680 for four
chords of four beats. -/
theorem claim_C1 (r rh : Rng) (chords : List (List Int)) (beats_per_chord : Nat)
    (hne : chords ≠ []) :
    (∀ e ∈ (create_bass_track_chaos r chords beats_per_chord TICKS_PER_BEAT).1,
        e.tick ≤ chords.length * (beats_per_chord * TICKS_PER_BEAT)) ∧
    (∃ e ∈ (create_bass_track_chaos r chords beats_per_chord TICKS_PER_BEAT).1,
        e.tick = chords.length * (beats_per_chord * TICKS_PER_BEAT)) ∧
    (∀ evs rf, create_harmony_track_chaos rh chords beats_per_chord TICKS_PER_BEAT =
        .ok (evs, rf) →
      ∀ e ∈ evs, e.tick ≤ chords.length * (beats_per_chord * TICKS_PER_BEAT)) ∧
    (∀ s, 1 ≤ s →
      s * bass_sub_tick_length (beats_per_chord * TICKS_PER_BEAT) s ≤
        beats_per_chord * TICKS_PER_BEAT) ∧
    (chords.length = 4 → beats_per_chord = 4 →
      ∃ e ∈ (create_bass_track_chaos r chords beats_per_chord TICKS_PER_BEAT).1,
        e.tick = 7680) := by
  have hdvd : ∀ s, 1 ≤ s → s ≤ 5 → s ∣ beats_per_chord * TICKS_PER_BEAT :=
    subdivs_dvd beats_per_chord
  have hreach := bassChords_reach (beats_per_chord * TICKS_PER_BEAT) hdvd chords hne 0 r
  refine ⟨?_, ?_, ?_, ?_, ?_⟩
  · intro e he
    have := bassChords_tick_bound (beats_per_chord * TICKS_PER_BEAT) chords 0 r e he
    omega
  · obtain ⟨e, he, ht⟩ := hreach
    exact ⟨e, he, by omega⟩
  · intro evs rf h e he
    have := harmonyChords_tick_bound (beats_per_chord * TICKS_PER_BEAT) chords 0 rh evs rf h e he
    omega
  · intro s hs
    have h1 : bass_sub_tick_length (beats_per_chord * TICKS_PER_BEAT) s =
        beats_per_chord * TICKS_PER_BEAT / s := by
      simp [bass_sub_tick_length, Nat.lt_of_lt_of_le Nat.zero_lt_one hs]
    rw [h1]
    exact length_mul_div_le _ _
  · intro hlen hbeats
    obtain ⟨e, he, ht⟩ := hreach
    refine ⟨e, he, ?_⟩
    rw [ht, hlen, hbeats]
    rfl

/-- Witness for claim C1 at a concrete run: four 4-beat chords, the zero
stream; the Bass track ends exactly at tick 7680. -/
theorem claim_C1_witness :
    ∃ e ∈ (create_bass_track_chaos ⟨fun _ => 0, 0⟩
        [[60, 64, 67], [60, 64, 67], [60, 64, 67], [60, 64, 67]] 4 TICKS_PER_BEAT).1,
      e.tick = 7680 :=
  (claim_C1 ⟨fun _ => 0, 0⟩ ⟨fun _ => 0, 0⟩
    [[60, 64, 67], [60, 64, 67], [60, 64, 67], [60, 64, 67]] 4
    (by simp)).2.2.2.2 rfl rfl

/-- Witness for claim C4 at a concrete run: the zero stream over two chords
produces the C-major triad [36, 40, 43], which has the major shape and
non-decreasing pitches. -/
theorem claim_C4_witness :
    (∃ root : Int, [(36:Int), 40, 43] = [root, root + 4, root + 7] ∨
        [(36:Int), 40, 43] = [root, root + 3, root + 7]) ∧
      List.Chain' (· ≤ ·) [(36:Int), 40, 43] :=
  (claim_C4 ⟨fun _ => 0, 0⟩ 2).2.1 [36, 40, 43] (by decide)

/-- Witness for claim C3 at a concrete run: the Bass track of one C-major
chord on the zero stream reads as adjacent on/off pairs. -/
theorem claim_C3_witness :
    pairedUp (create_bass_track_chaos ⟨fun _ => 0, 0⟩ [[60, 64, 67]] 4 480).1 :=
  (claim_C3 ⟨fun _ => 0, 0⟩ ⟨fun _ => 0, 0⟩ ⟨fun _ => 0, 0⟩ ⟨fun _ => 0, 0⟩
      [[60, 64, 67]] [60] 1 4 480).2 _
    (claim_C3 ⟨fun _ => 0, 0⟩ ⟨fun _ => 0, 0⟩ ⟨fun _ => 0, 0⟩ ⟨fun _ => 0, 0⟩
      [[60, 64, 67]] [60] 1 4 480).1.2.1

/-! ## Serializer: stable sort, deltas, round trip (claim C2) -/

/-- The delta-time carried by an output message. -/
def msgTime : MidoMsg → Int
  | .program_change _ _ t => t
  | .set_tempo _ t => t
  | .note_on _ _ t _ => t
  | .note_off _ _ t _ => t
  | .end_of_track t => t

/-- Re-accumulate a delta sequence starting from an absolute cursor. -/
def accumulate : List Int → Int → List Int
  | [], _ => []
  | d :: ds, acc => (acc + d) :: accumulate ds (acc + d)

/-- The tick comparison is transitive. -/
theorem eventLE_trans : ∀ (a b c : TimedEvent),
    eventLE a b → eventLE b c → eventLE a c := by
  intro a b c hab hbc
  simp only [eventLE, decide_eq_true_eq] at hab hbc ⊢
  omega

/-- The tick comparison is total. -/
theorem eventLE_total : ∀ (a b : TimedEvent), eventLE a b || eventLE b a := by
  intro a b
  simp only [eventLE]
  by_cases h : a.tick ≤ b.tick
  · simp [h]
  · simp [h]
    omega

/-- The serializer's sort produces non-decreasing ticks. -/
theorem sortEvents_sorted (events : List TimedEvent) :
    (sortEvents events).Pairwise (fun a b => a.tick ≤ b.tick) := by
  have h := List.sorted_mergeSort eventLE_trans eventLE_total events
  exact h.imp (by intro a b hab; simpa [eventLE] using hab)

/-- Stability of the serializer's sort: the events at any fixed tick keep
their original relative order (their sublist is unchanged by sorting). -/
theorem sortEvents_stable (events : List TimedEvent) (t : Nat) :
    (sortEvents events).filter (fun e => e.tick == t) =
      events.filter (fun e => e.tick == t) := by
  set p : TimedEvent → Bool := fun e => e.tick == t with hp
  have hallt : ∀ e ∈ events.filter p, e.tick = t := by
    intro e he
    have := (List.mem_filter.mp he).2
    simpa [hp] using this
  have hpw : (events.filter p).Pairwise (fun a b => eventLE a b = true) := by
    apply List.pairwise_of_forall_mem_list
    intro a ha b hb
    simp only [eventLE, decide_eq_true_eq]
    rw [hallt a ha, hallt b hb]
  have hsub : List.Sublist (events.filter p) (sortEvents events) :=
    List.sublist_mergeSort eventLE_trans eventLE_total hpw (List.filter_sublist events)
  have hsub2 : List.Sublist (events.filter p) ((sortEvents events).filter p) := by
    have := hsub.filter p
    rwa [List.filter_filter, List.filter_congr (by
      intro e he
      simp [Bool.and_self]
      : ∀ e ∈ events, (p e && p e) = p e)] at this
  have hperm : List.Perm ((sortEvents events).filter p) (events.filter p) :=
    (List.mergeSort_perm events eventLE).filter p
  exact (hsub2.eq_of_length hperm.length_eq.symm).symm

/-- Deltas emitted from a sorted list past its cursor are non-negative. -/
theorem deltaWalk_nonneg :
    ∀ (es : List TimedEvent) (prev : Nat),
      es.Pairwise (fun a b => a.tick ≤ b.tick) → (∀ e ∈ es, prev ≤ e.tick) →
      ∀ m ∈ deltaWalk es prev, 0 ≤ msgTime m := by
  intro es
  induction es with
  | nil => intro prev _ _ m hm; simp [deltaWalk] at hm
  | cons e rest ih =>
    intro prev hpw hprev m hm
    simp only [deltaWalk, List.mem_cons] at hm
    rcases hm with h | h
    · have he : prev ≤ e.tick := hprev e (by simp)
      subst h
      cases hk : e.kind <;> simp [msgTime, hk] <;> omega
    · exact ih e.tick hpw.of_cons (fun x hx => List.rel_of_pairwise_cons hpw hx) m h

/-- Round trip: re-accumulating the emitted delta sequence from the cursor
reproduces the absolute ticks of the walked event list exactly. -/
theorem deltaWalk_roundtrip :
    ∀ (es : List TimedEvent) (prev : Nat),
      accumulate ((deltaWalk es prev).map msgTime) prev =
        es.map (fun e => (e.tick : Int)) := by
  intro es
  induction es with
  | nil => intro prev; rfl
  | cons e rest ih =>
    intro prev
    have hacc : (prev : Int) + ((e.tick : Int) - (prev : Int)) = (e.tick : Int) := by
      omega
    cases hk : e.kind <;>
      simp only [deltaWalk, hk, List.map_cons, msgTime, accumulate, hacc, ih]

/-- Claim C2: for every track the serializer writes, the events are stable
sorted by absolute tick (ties keep their original relative order), the
emitted deltas are current minus previous tick with the cursor starting at
0, every delta is non-negative, re-accumulating the deltas reproduces the
sorted absolute ticks exactly, and each track's messages are exactly one
program change followed by the delta-encoded events and an end-of-track
marker. -/
theorem claim_C2 (r : Rng) (name : String) (events : List TimedEvent) :
    ((sortEvents events).Pairwise (fun a b => a.tick ≤ b.tick)) ∧
    (∀ t : Nat, (sortEvents events).filter (fun e => e.tick == t) =
        events.filter (fun e => e.tick == t)) ∧
    (∀ m ∈ deltaWalk (sortEvents events) 0, 0 ≤ msgTime m) ∧
    (accumulate ((deltaWalk (sortEvents events) 0).map msgTime) 0 =
        (sortEvents events).map (fun e => (e.tick : Int))) ∧
    (∃ pc : MidoMsg, (midiTrackFor r name events).1 =
        pc :: (deltaWalk (sortEvents events) 0 ++ [MidoMsg.end_of_track 0])) := by
  refine ⟨sortEvents_sorted events, fun t => sortEvents_stable events t, ?_, ?_, ?_⟩
  · intro m hm
    exact deltaWalk_nonneg (sortEvents events) 0 (sortEvents_sorted events)
      (fun e _ => Nat.zero_le _) m hm
  · have h := deltaWalk_roundtrip (sortEvents events) 0
    simpa using h
  · by_cases h : name = "Drums"
    · exact ⟨MidoMsg.program_change 0 9 0, by simp [midiTrackFor, h]⟩
    · exact ⟨MidoMsg.program_change (r.choice RANDOM_INSTRUMENTS 0).1
        (trackChannel name) 0, by simp [midiTrackFor, h]⟩

/-- Witness for claim C2 at a concrete track: two same-tick events plus an
earlier one; the delta of the first emitted message is non-negative. -/
theorem claim_C2_witness :
    0 ≤ msgTime (MidoMsg.note_off 60 100 2 1) :=
  (claim_C2 ⟨fun _ => 0, 0⟩ "Bass"
      [⟨5, .note_on, 60, 100, 1⟩, ⟨2, .note_off, 60, 100, 1⟩]).2.2.1
    (MidoMsg.note_off 60 100 2 1)
    (by simp [sortEvents, List.mergeSort, List.merge, eventLE, deltaWalk, msgTime])

/-! ## Melody note behaviour (claim C7) -/

/-- The per-note clamped duration of the melody generator. -/
theorem melodyNote_duration (r : Rng) (phrase : List Nat) (scale_notes : List Int)
    (ds : List PyFloat) (li st tpb ct : Nat) :
    (melodyNote r phrase scale_notes ds li st tpb ct).2.1 =
      min ((ds.getD (li % ds.length) ⟨0, 1⟩).floorMulNat tpb) st := rfl

/-- The melody note loop advances its cursor by the sum of the clamped
durations of the notes it emits — each at most the per-note budget — not
by the budget itself. -/
theorem melodyNotes_cursor (phrase : List Nat) (scale_notes : List Int)
    (ds : List PyFloat) (st tpb : Nat) :
    ∀ (k li ct : Nat) (r : Rng), ∃ durs : List Nat, durs.length = k ∧
      (∀ d ∈ durs, d ≤ st) ∧
      (melodyNotes r phrase scale_notes ds st tpb k li ct).2.2.1 = ct + durs.sum := by
  intro k
  induction k with
  | zero => intro li ct r; exact ⟨[], rfl, by simp, by simp [melodyNotes]⟩
  | succ k ih =>
    intro li ct r
    obtain ⟨durs, hlen, hb, hsum⟩ := ih (li + 1)
      (ct + (melodyNote r phrase scale_notes ds li st tpb ct).2.1)
      (melodyNote r phrase scale_notes ds li st tpb ct).2.2
    refine ⟨(melodyNote r phrase scale_notes ds li st tpb ct).2.1 :: durs,
      by simp [hlen], ?_, ?_⟩
    · intro d hd
      rcases List.mem_cons.mp hd with h | h
      · subst h
        rw [melodyNote_duration]
        exact Nat.min_le_right _ _
      · exact hb d h
    · show (melodyNotes r phrase scale_notes ds st tpb (k + 1) li ct).2.2.1 = _
      have : (melodyNotes r phrase scale_notes ds st tpb (k + 1) li ct).2.2.1 =
          (melodyNotes (melodyNote r phrase scale_notes ds li st tpb ct).2.2 phrase
            scale_notes ds st tpb k (li + 1)
            (ct + (melodyNote r phrase scale_notes ds li st tpb ct).2.1)).2.2.1 := rfl
      rw [this, hsum, List.sum_cons]
      omega

/-- Shape of one melody note: the emitted pitch is the phrase-selected
scale entry plus exactly one shift among +12, 0, -12, the up shift taken
iff the first 0.2-check passes and the down shift iff the first fails and
the second passes; the emitted duration is the cycled L-system duration in
ticks clamped by the budget, and the note fills `[ct, ct + duration]`. -/
theorem melodyNote_shape (r : Rng) (phrase : List Nat) (scale_notes : List Int)
    (ds : List PyFloat) (li st tpb ct : Nat) :
    ∃ (shift : Int) (velocity : Nat) (rf : Rng),
      melodyNote r phrase scale_notes ds li st tpb ct =
        (add_note [] (scale_notes.getD (r.choice phrase 0).1 0 + shift) velocity ct
          (min ((ds.getD (li % ds.length) ⟨0, 1⟩).floorMulNat tpb) st) 0,
         min ((ds.getD (li % ds.length) ⟨0, 1⟩).floorMulNat tpb) st, rf) ∧
      (shift = 12 ∨ shift = 0 ∨ shift = -12) ∧
      (shift = 12 ↔ (r.choice phrase 0).2.random.1.blt ⟨2, 10⟩ = true) ∧
      (shift = -12 ↔ ((r.choice phrase 0).2.random.1.blt ⟨2, 10⟩ = false ∧
        (r.choice phrase 0).2.random.2.random.1.blt ⟨2, 10⟩ = true)) := by
  by_cases h1 : (r.choice phrase 0).2.random.1.blt ⟨2, 10⟩ = true
  · refine ⟨12, ((r.choice phrase 0).2.random.2.randint 60 127).1,
      ((r.choice phrase 0).2.random.2.randint 60 127).2, ?_, by omega, ?_, ?_⟩
    · simp only [melodyNote, h1, if_true]
    · simp [h1]
    · simp [h1]
  · by_cases h2 : (r.choice phrase 0).2.random.2.random.1.blt ⟨2, 10⟩ = true
    · refine ⟨-12, ((r.choice phrase 0).2.random.2.random.2.randint 60 127).1,
        ((r.choice phrase 0).2.random.2.random.2.randint 60 127).2, ?_, by omega, ?_, ?_⟩
      · simp only [melodyNote, h1, h2, if_true, if_false, Bool.not_eq_true] at h1 ⊢
        simp [h1, h2, sub_eq_add_neg]
      · simp [h1]
      · simp [h1, h2]
    · refine ⟨0, ((r.choice phrase 0).2.random.2.random.2.randint 60 127).1,
        ((r.choice phrase 0).2.random.2.random.2.randint 60 127).2, ?_, by omega, ?_, ?_⟩
      · simp only [melodyNote, Bool.not_eq_true] at h1 h2 ⊢
        simp [h1, h2]
      · simp [h1]
      · simp [h1, h2]

/-- Claim C7: each melody note's pitch is the phrase-selected scale entry
shifted by exactly one of +12, 0, -12 — up iff the first 0.2-check passes,
down iff the first fails and the second passes, never both — its duration
is the cycled L-system duration in ticks clamped by the per-note budget,
and the loop cursor advances by the clamped durations, not by the budget. -/
theorem claim_C7 (r : Rng) (phrase : List Nat) (scale_notes : List Int)
    (ds : List PyFloat) (li st tpb ct : Nat) :
    (∃ (shift : Int) (velocity : Nat) (rf : Rng),
      melodyNote r phrase scale_notes ds li st tpb ct =
        (add_note [] (scale_notes.getD (r.choice phrase 0).1 0 + shift) velocity ct
          (min ((ds.getD (li % ds.length) ⟨0, 1⟩).floorMulNat tpb) st) 0,
         min ((ds.getD (li % ds.length) ⟨0, 1⟩).floorMulNat tpb) st, rf) ∧
      (shift = 12 ∨ shift = 0 ∨ shift = -12) ∧
      (shift = 12 ↔ (r.choice phrase 0).2.random.1.blt ⟨2, 10⟩ = true) ∧
      (shift = -12 ↔ ((r.choice phrase 0).2.random.1.blt ⟨2, 10⟩ = false ∧
        (r.choice phrase 0).2.random.2.random.1.blt ⟨2, 10⟩ = true))) ∧
    (∀ (k li2 ct2 : Nat) (r2 : Rng), ∃ durs : List Nat, durs.length = k ∧
      (∀ d ∈ durs, d ≤ st) ∧
      (melodyNotes r2 phrase scale_notes ds st tpb k li2 ct2).2.2.1 = ct2 + durs.sum) :=
  ⟨melodyNote_shape r phrase scale_notes ds li st tpb ct,
   fun k li2 ct2 r2 => melodyNotes_cursor phrase scale_notes ds st tpb k li2 ct2 r2⟩

/-! ## Pitch ranges (claim C9) -/

/-- `random.choice` on a non-empty list returns one of its elements. -/
theorem choice_mem {α : Type} (r : Rng) (l : List α) (d : α) (h : 0 < l.length) :
    (r.choice l d).1 ∈ l := by
  simp only [Rng.choice, Rng.next]
  have hm : (r.stream r.idx) % l.length < l.length := Nat.mod_lt _ h
  rw [List.getD_eq_getElem _ _ hm]
  exact List.getElem_mem hm

/-- The note-name lookup stays within one octave for any string. -/
theorem note_map_bound (s : String) : 0 ≤ note_map s ∧ note_map s ≤ 11 := by
  unfold note_map
  omega

/-- Bounds for a root note at octaves between `lo` and `hi`. -/
theorem note_name_to_midi_bound (s : String) {oct lo hi : Nat}
    (hlo : lo ≤ oct) (hhi : oct ≤ hi) :
    12 * ((lo : Int) + 1) ≤ note_name_to_midi s oct ∧
      note_name_to_midi s oct ≤ 12 * ((hi : Int) + 1) + 11 := by
  obtain ⟨h0, h11⟩ := note_map_bound s
  unfold note_name_to_midi
  omega

/-- Every interval of every mode table entry lies in `[0, 11]`. -/
theorem possible_modes_interval_bound :
    ∀ mode ∈ possible_modes, (∀ i ∈ mode.2, 0 ≤ i ∧ i ≤ 11) ∧ 0 < mode.2.length := by
  decide

/-- A triad-shaped chord contains its first and third entries. -/
theorem triad_getD_mem {chord : List Int}
    (h : ∃ root : Int, chord = [root, root + 4, root + 7] ∨
      chord = [root, root + 3, root + 7]) :
    chord.getD 0 0 ∈ chord ∧ chord.getD 2 0 ∈ chord := by
  obtain ⟨root, h | h⟩ := h <;> subst h <;> simp

/-- All pitches of the chord loop stay within 18 semitones above the base
root when the interval set lies in `[0, 11]`. -/
theorem chordLoop_pitch_bound (intervals : List Int) (base : Int)
    (hint : ∀ i ∈ intervals, 0 ≤ i ∧ i ≤ 11) (h0 : 0 < intervals.length) :
    ∀ (n : Nat) (r : Rng), ∀ chord ∈ (chordLoop r intervals base n).1, ∀ p ∈ chord,
      base ≤ p ∧ p ≤ base + 18 := by
  intro n
  induction n with
  | zero => intro r chord hc; simp [chordLoop] at hc
  | succ k ih =>
    intro r chord hc p hp
    rw [chordLoop_succ] at hc
    rcases List.mem_cons.mp hc with h | h
    · have hshape := build_triads_shape (r.choice intervals 0).2
        (base + (r.choice intervals 0).1)
      have hintv := hint _ (choice_mem r intervals 0 h0)
      subst h
      rcases hshape with hs | hs <;> rw [hs] at hp <;> simp at hp <;>
        rcases hp with h | h | h <;> omega
    · exact ih _ chord h p hp

/-- All pitches of the random chord progression lie in `[36, 101]`. -/
theorem progression_pitch_bound (r : Rng) (C : Nat) :
    ∀ chord ∈ (get_random_chord_progression r C).1.1, ∀ p ∈ chord,
      36 ≤ p ∧ p ≤ 101 := by
  intro chord hc p hp
  simp only [get_random_chord_progression] at hc
  have hoct2 : 2 ≤ ((r.choice note_names "C").2.randint 2 5).1 :=
    randint_fst_le _ 2 5
  have hoct5 : ((r.choice note_names "C").2.randint 2 5).1 ≤ 5 :=
    randint_fst_le_hi _ (by omega)
  have hbase := note_name_to_midi_bound (r.choice note_names "C").1 hoct2 hoct5
  have hmode := possible_modes_interval_bound _
    (choice_mem ((r.choice note_names "C").2.randint 2 5).2 possible_modes
      ("major", [0, 2, 4, 5, 7, 9, 11]) (by decide))
  have := chordLoop_pitch_bound _ _ hmode.1 hmode.2 C _ chord hc p hp
  omega

/-- The chords of the random progression are triads. -/
theorem progression_shape (r : Rng) (C : Nat) :
    ∀ chord ∈ (get_random_chord_progression r C).1.1,
      ∃ root : Int, chord = [root, root + 4, root + 7] ∨
        chord = [root, root + 3, root + 7] := by
  intro chord hc
  simp only [get_random_chord_progression] at hc
  exact chordLoop_shape _ _ _ _ chord hc

/-- The bass octave shift is one of -12, 0, +12. -/
theorem bassShift_mem :
    ∀ x ∈ ([-12, 0, 12] : List Int), -12 ≤ x ∧ x ≤ 12 := by decide

/-- One bass pitch stays within one octave of the chord root and fifth. -/
theorem bassNote_bound (r : Rng) {cr cf : Int}
    (hcr : 36 ≤ cr ∧ cr ≤ 101) (hcf : 36 ≤ cf ∧ cf ≤ 101) :
    24 ≤ (bassNote r cr cf).1 ∧ (bassNote r cr cf).1 ≤ 113 := by
  have hnote : (if (r.random.1.blt ⟨7, 10⟩) then cr else cf) = cr ∨
      (if (r.random.1.blt ⟨7, 10⟩) then cr else cf) = cf := by
    by_cases h : (r.random.1.blt ⟨7, 10⟩) = true <;> simp [h]
  have hshift := bassShift_mem _
    (choice_mem (r.random.2.random.2) ([-12, 0, 12] : List Int) 0 (by decide))
  by_cases h2 : (r.random.2.random.1.blt ⟨5, 10⟩) = true
  · have : bassNote r cr cf =
        ((if (r.random.1.blt ⟨7, 10⟩) then cr else cf) +
          ((r.random.2.random.2).choice ([-12, 0, 12] : List Int) 0).1,
         ((r.random.2.random.2).choice ([-12, 0, 12] : List Int) 0).2) := by
      simp only [bassNote, h2, if_true]
    rw [this]
    rcases hnote with h | h <;> rw [h] <;> constructor <;> simp <;> omega
  · have : bassNote r cr cf =
        ((if (r.random.1.blt ⟨7, 10⟩) then cr else cf) + 0, r.random.2.random.2) := by
      simp only [bassNote, h2, if_false, Bool.not_eq_true] at h2 ⊢
      simp [h2]
    rw [this]
    rcases hnote with h | h <;> rw [h] <;> constructor <;> simp <;> omega

/-- All bass slot pitches stay within `[24, 113]` for a chord in range. -/
theorem bassSlots_note_bound {cr cf : Int}
    (hcr : 36 ≤ cr ∧ cr ≤ 101) (hcf : 36 ≤ cf ∧ cf ≤ 101) (sl : Nat) :
    ∀ (k t : Nat) (r : Rng), ∀ e ∈ (bassSlots r cr cf sl k t).1,
      24 ≤ e.note ∧ e.note ≤ 113 := by
  intro k
  induction k with
  | zero => intro t r e he; simp [bassSlots] at he
  | succ k ih =>
    intro t r e he
    rw [bassSlots_succ] at he
    rcases List.mem_append.mp he with h | h
    · have hb := bassNote_bound r hcr hcf
      simp only [add_note, List.nil_append, List.mem_cons, List.mem_singleton] at h
      rcases h with h | h | h
      · subst h; exact hb
      · subst h; exact hb
      · exact absurd h (by simp)
    · exact ih _ _ e h

/-- All bass pitches stay within `[24, 113]` when every chord is a triad
with pitches in `[36, 101]`. -/
theorem bassChords_note_bound (L : Nat) :
    ∀ (chords : List (List Int)), (∀ chord ∈ chords,
      (∃ root : Int, chord = [root, root + 4, root + 7] ∨
        chord = [root, root + 3, root + 7]) ∧
      (∀ p ∈ chord, 36 ≤ p ∧ p ≤ 101)) →
    ∀ (t : Nat) (r : Rng), ∀ e ∈ (bassChords r L chords t).1,
      24 ≤ e.note ∧ e.note ≤ 113 := by
  intro chords
  induction chords with
  | nil => intro _ t r e he; simp [bassChords] at he
  | cons chord rest ih =>
    intro hch t r e he
    simp only [bassChords, List.mem_append] at he
    rcases he with h | h
    · obtain ⟨hshape, hbound⟩ := hch chord (by simp)
      obtain ⟨h0, h2⟩ := triad_getD_mem hshape
      simp only [bassChord] at h
      exact bassSlots_note_bound (hbound _ h0) (hbound _ h2) _ _ _ _ e h
    · exact ih (fun c hc => hch c (List.mem_cons_of_mem _ hc)) _ _ e h

/-- Every interval set the melody scale builder can pick lies in `[0, 11]`
and is non-empty. -/
theorem scale_mode_choices_bound :
    ∀ l ∈ scale_mode_choices, (∀ i ∈ l, 0 ≤ i ∧ i ≤ 11) ∧ 0 < l.length := by
  decide

/-- The melody scale's pitches lie in `[48, 106]` and the scale is
non-empty. -/
theorem buildScaleNotes_bound (r : Rng) :
    (∀ p ∈ (buildScaleNotes r).1, 48 ≤ p ∧ p ≤ 106) ∧
      0 < (buildScaleNotes r).1.length := by
  have hmode := scale_mode_choices_bound _
    (choice_mem r scale_mode_choices [0, 2, 4, 5, 7, 9, 11] (by decide))
  have hoct3 : 3 ≤ (((r.choice scale_mode_choices [0, 2, 4, 5, 7, 9, 11]).2.choice
      note_names "C").2.randint 3 5).1 := randint_fst_le _ 3 5
  have hoct5 : (((r.choice scale_mode_choices [0, 2, 4, 5, 7, 9, 11]).2.choice
      note_names "C").2.randint 3 5).1 ≤ 5 := randint_fst_le_hi _ (by omega)
  have hroot := note_name_to_midi_bound
    ((r.choice scale_mode_choices [0, 2, 4, 5, 7, 9, 11]).2.choice note_names "C").1
    hoct3 hoct5
  constructor
  · intro p hp
    simp only [buildScaleNotes, List.flatMap_cons, List.flatMap_nil, List.append_nil,
      List.mem_append, List.mem_map] at hp
    rcases hp with ⟨i, hi, rfl⟩ | ⟨i, hi, rfl⟩ <;>
      have := hmode.1 i hi <;> constructor <;> omega
  · simp only [buildScaleNotes, List.flatMap_cons, List.flatMap_nil, List.append_nil,
      List.length_append, List.length_map]
    omega

/-- Every phrase index is at most the bound given to the comprehension. -/
theorem phraseLoop_bound (hi : Nat) :
    ∀ (k : Nat) (r : Rng), ∀ i ∈ (phraseLoop r hi k).1, i ≤ hi := by
  intro k
  induction k with
  | zero => intro r i hi2; simp [phraseLoop] at hi2
  | succ k ih =>
    intro r i hmem
    have hstep : (phraseLoop r hi (k + 1)).1 =
        (r.randint 0 hi).1 :: (phraseLoop (r.randint 0 hi).2 hi k).1 := rfl
    rw [hstep] at hmem
    rcases List.mem_cons.mp hmem with h | h
    · subst h
      exact randint_fst_le_hi r (Nat.zero_le hi)
    · exact ih _ i h

/-- One melody note's pitch lies in `[36, 118]` when the scale is the
builder's (pitches in `[48, 106]`) and the phrase indexes into it. -/
theorem melodyNote_note_bound (r : Rng) (phrase : List Nat) (scale_notes : List Int)
    (ds : List PyFloat) (li st tpb ct : Nat)
    (hscale : ∀ p ∈ scale_notes, 48 ≤ p ∧ p ≤ 106) (hlen : 0 < scale_notes.length)
    (hphrase : ∀ i ∈ phrase, i < scale_notes.length) :
    ∀ e ∈ (melodyNote r phrase scale_notes ds li st tpb ct).1,
      36 ≤ e.note ∧ e.note ≤ 118 := by
  obtain ⟨shift, vel, rf, heq, hsh, _, _⟩ :=
    melodyNote_shape r phrase scale_notes ds li st tpb ct
  have hchunk : (melodyNote r phrase scale_notes ds li st tpb ct).1 =
      add_note [] (scale_notes.getD (r.choice phrase 0).1 0 + shift) vel ct
        (min ((ds.getD (li % ds.length) ⟨0, 1⟩).floorMulNat tpb) st) 0 := by
    rw [heq]
  have hidx : (r.choice phrase 0).1 < scale_notes.length := by
    rcases hphr : phrase with _ | ⟨i0, rest⟩
    · have : (r.choice ([] : List Nat) 0).1 = 0 := by
        simp [Rng.choice]
      rw [this]
      exact hlen
    · rw [← hphr]
      exact hphrase _ (choice_mem r phrase 0 (by rw [hphr]; simp))
  have hmem : scale_notes.getD (r.choice phrase 0).1 0 ∈ scale_notes := by
    rw [List.getD_eq_getElem _ _ hidx]
    exact List.getElem_mem hidx
  have hbase := hscale _ hmem
  intro e he
  rw [hchunk] at he
  simp only [add_note, List.nil_append, List.mem_cons, List.mem_singleton] at he
  rcases he with h | h | h
  · subst h; dsimp only; omega
  · subst h; dsimp only; omega
  · exact absurd h (by simp)

/-- One-step unfolding of the melody note loop's event list. -/
theorem melodyNotes_succ (r : Rng) (phrase : List Nat) (scale_notes : List Int)
    (ds : List PyFloat) (st tpb k li ct : Nat) :
    (melodyNotes r phrase scale_notes ds st tpb (k + 1) li ct).1 =
      (melodyNote r phrase scale_notes ds li st tpb ct).1 ++
        (melodyNotes (melodyNote r phrase scale_notes ds li st tpb ct).2.2 phrase
          scale_notes ds st tpb k (li + 1)
          (ct + (melodyNote r phrase scale_notes ds li st tpb ct).2.1)).1 := rfl

/-- All pitches of the melody note loop stay in `[36, 118]`. -/
theorem melodyNotes_note_bound (phrase : List Nat) (scale_notes : List Int)
    (ds : List PyFloat) (st tpb : Nat)
    (hscale : ∀ p ∈ scale_notes, 48 ≤ p ∧ p ≤ 106) (hlen : 0 < scale_notes.length)
    (hphrase : ∀ i ∈ phrase, i < scale_notes.length) :
    ∀ (k li ct : Nat) (r : Rng),
      ∀ e ∈ (melodyNotes r phrase scale_notes ds st tpb k li ct).1,
        36 ≤ e.note ∧ e.note ≤ 118 := by
  intro k
  induction k with
  | zero => intro li ct r e he; simp [melodyNotes] at he
  | succ k ih =>
    intro li ct r e he
    rw [melodyNotes_succ] at he
    rcases List.mem_append.mp he with h | h
    · exact melodyNote_note_bound r phrase scale_notes ds li st tpb ct
        hscale hlen hphrase e h
    · exact ih _ _ _ e h

/-- One-step unfolding of the melody chord loop's event list. -/
theorem melodyChords_cons (r : Rng) (phrase : List Nat) (scale_notes : List Int)
    (ds : List PyFloat) (L tpb : Nat) (chord : List Int) (rest : List (List Int))
    (li ct : Nat) :
    (melodyChords r phrase scale_notes ds L tpb (chord :: rest) li ct).1 =
      (melodyNotes (r.randint 2 6).2 phrase scale_notes ds
          (melody_sub_tick L (r.randint 2 6).1) tpb (r.randint 2 6).1 li ct).1 ++
        (melodyChords (melodyNotes (r.randint 2 6).2 phrase scale_notes ds
            (melody_sub_tick L (r.randint 2 6).1) tpb (r.randint 2 6).1 li ct).2.2.2
          phrase scale_notes ds L tpb rest
          (melodyNotes (r.randint 2 6).2 phrase scale_notes ds
            (melody_sub_tick L (r.randint 2 6).1) tpb (r.randint 2 6).1 li ct).2.1
          (melodyNotes (r.randint 2 6).2 phrase scale_notes ds
            (melody_sub_tick L (r.randint 2 6).1) tpb (r.randint 2 6).1 li ct).2.2.1).1 := rfl

/-- All pitches of the melody chord loop stay in `[36, 118]`. -/
theorem melodyChords_note_bound (phrase : List Nat) (scale_notes : List Int)
    (ds : List PyFloat) (L tpb : Nat)
    (hscale : ∀ p ∈ scale_notes, 48 ≤ p ∧ p ≤ 106) (hlen : 0 < scale_notes.length)
    (hphrase : ∀ i ∈ phrase, i < scale_notes.length) :
    ∀ (chords : List (List Int)) (li ct : Nat) (r : Rng),
      ∀ e ∈ (melodyChords r phrase scale_notes ds L tpb chords li ct).1,
        36 ≤ e.note ∧ e.note ≤ 118 := by
  intro chords
  induction chords with
  | nil => intro li ct r e he; simp [melodyChords] at he
  | cons chord rest ih =>
    intro li ct r e he
    rw [melodyChords_cons] at he
    rcases List.mem_append.mp he with h | h
    · exact melodyNotes_note_bound phrase scale_notes ds _ tpb hscale hlen hphrase
        _ _ _ _ e h
    · exact ih _ _ _ e h

/-- All pitches the melody generator emits on the builder's scale stay in
`[36, 118]` — inside the valid MIDI range despite the octave shifts. -/
theorem create_melody_note_bound (r : Rng) (chords : List (List Int))
    (scale_notes : List Int) (beats_per_chord ticks_per_beat : Nat)
    (hscale : ∀ p ∈ scale_notes, 48 ≤ p ∧ p ≤ 106) (hlen : 0 < scale_notes.length) :
    ∀ e ∈ (create_melody_track_chaos r chords scale_notes beats_per_chord
        ticks_per_beat).1, 36 ≤ e.note ∧ e.note ≤ 118 := by
  intro e he
  have hphrase : ∀ i ∈ (phraseLoop ((r.randint 2 5).2.randint 3 7).2
      (scale_notes.length - 1) ((r.randint 2 5).2.randint 3 7).1).1,
      i < scale_notes.length := by
    intro i hi
    have := phraseLoop_bound (scale_notes.length - 1) _ _ i hi
    omega
  exact melodyChords_note_bound _ scale_notes _ _ _ hscale hlen hphrase
    chords 0 0 _ e he

/-- All pitches the bass generator emits on a random progression stay in
`[24, 113]` — inside the valid MIDI range despite the octave shifts. -/
theorem create_bass_note_bound (r rp : Rng) (C beats_per_chord ticks_per_beat : Nat) :
    ∀ e ∈ (create_bass_track_chaos r (get_random_chord_progression rp C).1.1
        beats_per_chord ticks_per_beat).1, 24 ≤ e.note ∧ e.note ≤ 113 := by
  intro e he
  refine bassChords_note_bound _ _ ?_ _ _ e he
  intro chord hc
  exact ⟨progression_shape rp C chord hc, progression_pitch_bound rp C chord hc⟩

/-- The serializer succeeds for every non-zero tempo. -/
theorem combine_and_write_midi_ok (r : Rng) (tracks : List (String × List TimedEvent))
    {tempo : Nat} (ht : tempo ≠ 0) :
    ∃ midi rf, combine_and_write_midi r tracks tempo = .ok (midi, rf) := by
  simp only [combine_and_write_midi, pyFloorDiv, ht, if_false]
  exact ⟨_, _, rfl⟩

/-- The full pipeline succeeds for every non-zero tempo, with the track
lists it serializes. -/
theorem runAll_spec (r : Rng) (m b t : Nat) (ht : t ≠ 0) :
    ∃ out rf, runAll r m b t = .ok (out, rf) ∧
      out.chords = (get_random_chord_progression r m).1.1 ∧
      out.bass_track = (create_bass_track_chaos
        (create_drum_track_chaos (get_random_chord_progression r m).2 m b
          TICKS_PER_BEAT).2
        (get_random_chord_progression r m).1.1 b TICKS_PER_BEAT).1 ∧
      ∃ r4 : Rng,
        out.scale_notes = (buildScaleNotes r4).1 ∧
        out.melody_track = (create_melody_track_chaos (buildScaleNotes r4).2
          (get_random_chord_progression r m).1.1 (buildScaleNotes r4).1 b
          TICKS_PER_BEAT).1 := by
  simp only [runAll]
  obtain ⟨hevs, r4, hharm⟩ := create_harmony_track_chaos_ok
    (create_bass_track_chaos
      (create_drum_track_chaos (get_random_chord_progression r m).2 m b
        TICKS_PER_BEAT).2
      (get_random_chord_progression r m).1.1 b TICKS_PER_BEAT).2
    (get_random_chord_progression r m).1.1 b TICKS_PER_BEAT
  rw [hharm]
  dsimp only
  obtain ⟨midi, rfc, hcomb⟩ := combine_and_write_midi_ok
    (create_melody_track_chaos (buildScaleNotes r4).2
      (get_random_chord_progression r m).1.1 (buildScaleNotes r4).1 b
      TICKS_PER_BEAT).2
    [("Drums", (create_drum_track_chaos (get_random_chord_progression r m).2 m b
        TICKS_PER_BEAT).1),
     ("Bass", (create_bass_track_chaos
        (create_drum_track_chaos (get_random_chord_progression r m).2 m b
          TICKS_PER_BEAT).2
        (get_random_chord_progression r m).1.1 b TICKS_PER_BEAT).1),
     ("Harmony", hevs),
     ("Melody", (create_melody_track_chaos (buildScaleNotes r4).2
        (get_random_chord_progression r m).1.1 (buildScaleNotes r4).1 b
        TICKS_PER_BEAT).1)] ht
  rw [hcomb]
  dsimp only
  exact ⟨_, _, rfl, rfl, rfl, r4, rfl, rfl⟩

/-- A zero tempo is the one failing input of the pipeline: the serializer's
`60000000 / tempo_bpm` raises. -/
theorem runAll_tempo_zero (r : Rng) (m b : Nat) :
    runAll r m b 0 = .error "ZeroDivisionError" := by
  simp only [runAll]
  obtain ⟨hevs, r4, hharm⟩ := create_harmony_track_chaos_ok
    (create_bass_track_chaos
      (create_drum_track_chaos (get_random_chord_progression r m).2 m b
        TICKS_PER_BEAT).2
      (get_random_chord_progression r m).1.1 b TICKS_PER_BEAT).2
    (get_random_chord_progression r m).1.1 b TICKS_PER_BEAT
  rw [hharm]
  rfl

/-- The Bass and Melody pitches of any successful run are bounded well
inside the valid 0-127 MIDI range. -/
theorem runAll_bass_melody_bound {r : Rng} {m b t : Nat} {out : RunOutput} {rf : Rng}
    (h : runAll r m b t = .ok (out, rf)) :
    (∀ e ∈ out.bass_track, 24 ≤ e.note ∧ e.note ≤ 113) ∧
    (∀ e ∈ out.melody_track, 36 ≤ e.note ∧ e.note ≤ 118) := by
  have ht : t ≠ 0 := by
    intro h0
    subst h0
    rw [runAll_tempo_zero] at h
    cases h
  obtain ⟨out2, rf2, heq, hch, hbass, r4, hsc, hmel⟩ := runAll_spec r m b t ht
  rw [heq] at h
  cases h
  constructor
  · rw [hbass]
    exact fun e he => create_bass_note_bound _ _ _ _ _ e he
  · rw [hmel]
    obtain ⟨hs, hl⟩ := buildScaleNotes_bound r4
    exact fun e he => create_melody_note_bound _ _ _ _ _ hs hl e he

/-- Counterexample to claim C9 as stated: there is no random stream and no
valid run of the program on which a Bass or Melody event leaves the 0-127
pitch range — the program's own chord and scale construction keeps every
such pitch in range, octave shifts included. -/
theorem claim_C9_counterexample :
    ¬ ∃ (s : Nat → Nat) (m b t : Nat) (out : RunOutput) (rf : Rng) (e : TimedEvent),
      runAll ⟨s, 0⟩ m b t = .ok (out, rf) ∧
      (e ∈ out.bass_track ∨ e ∈ out.melody_track) ∧
      (e.note < 0 ∨ 127 < e.note) := by
  rintro ⟨s, m, b, t, out, rf, e, hrun, hmem, hbad⟩
  obtain ⟨hb, hm⟩ := runAll_bass_melody_bound hrun
  rcases hmem with h | h
  · have := hb e h
    omega
  · have := hm e h
    omega

/-- Claim C9 (amended): the core applies no pitch clamp — an out-of-range
scale pitch handed to the Melody generator is emitted unvalidated — but
under the program's own chord and scale construction the octave-shift
branches never push a Bass or Melody pitch outside 0-127 (Bass stays in
[24, 113], Melody in [36, 118]). -/
theorem claim_C9 {r : Rng} {m b t : Nat} {out : RunOutput} {rf : Rng}
    (h : runAll r m b t = .ok (out, rf)) :
    (∀ e ∈ out.bass_track, 24 ≤ e.note ∧ e.note ≤ 113) ∧
    (∀ e ∈ out.melody_track, 36 ≤ e.note ∧ e.note ≤ 118) ∧
    (∃ e ∈ (create_melody_track_chaos ⟨fun _ => 0, 0⟩ [[60, 64, 67]] [200] 4 480).1,
      127 < e.note) := by
  obtain ⟨hb, hm⟩ := runAll_bass_melody_bound h
  exact ⟨hb, hm, by decide⟩

/-- Witness for claim C9 at a concrete run: the zero stream over one
measure at tempo 120 succeeds and its Bass pitches lie in [24, 113]. -/
theorem claim_C9_witness :
    ∃ out rf, runAll ⟨fun _ => 0, 0⟩ 1 4 120 = .ok (out, rf) ∧
      ∀ e ∈ out.bass_track, 24 ≤ e.note ∧ e.note ≤ 113 := by
  obtain ⟨out, rf, h, _⟩ := runAll_spec ⟨fun _ => 0, 0⟩ 1 4 120 (by decide)
  exact ⟨out, rf, h, (claim_C9 h).1⟩

/-! ## Determinism in the consumed stream prefix (claim C10) -/

/-- Two streams agree on the index window `[lo, hi)`. -/
def agreeOn (s1 s2 : Nat → Nat) (lo hi : Nat) : Prop :=
  ∀ j, lo ≤ j → j < hi → s1 j = s2 j

/-- A random computation is deterministic in the stream prefix it consumes:
it passes the stream through, only moves the cursor forward, and its result
and cursor advance depend only on the stream values below the final cursor. -/
def Det {α : Type} (f : Rng → α × Rng) : Prop :=
  (∀ s i, (f ⟨s, i⟩).2 = ⟨s, (f ⟨s, i⟩).2.idx⟩) ∧
  (∀ s i, i ≤ (f ⟨s, i⟩).2.idx) ∧
  (∀ s1 s2 i, agreeOn s1 s2 i (f ⟨s1, i⟩).2.idx →
    (f ⟨s1, i⟩).1 = (f ⟨s2, i⟩).1 ∧ (f ⟨s2, i⟩).2.idx = (f ⟨s1, i⟩).2.idx)

/-- A computation that draws nothing is deterministic. -/
theorem Det_pure {α : Type} (a : α) : Det (fun r => (a, r)) :=
  ⟨fun _ _ => rfl, fun _ _ => le_refl _, fun _ _ _ _ => ⟨rfl, rfl⟩⟩

/-- Sequencing preserves determinism. -/
theorem Det_bind {α β : Type} (f : Rng → α × Rng) (g : α → Rng → β × Rng)
    (hf : Det f) (hg : ∀ a, Det (g a)) :
    Det (fun r => g (f r).1 (f r).2) := by
  obtain ⟨hfs, hfm, hfa⟩ := hf
  refine ⟨?_, ?_, ?_⟩
  · intro s i
    have h1 := hfs s i
    show (g (f ⟨s, i⟩).1 (f ⟨s, i⟩).2).2 =
      ⟨s, (g (f ⟨s, i⟩).1 (f ⟨s, i⟩).2).2.idx⟩
    rw [h1]
    exact (hg (f ⟨s, i⟩).1).1 s (f ⟨s, i⟩).2.idx
  · intro s i
    have h1 := hfs s i
    have hm1 := hfm s i
    show i ≤ (g (f ⟨s, i⟩).1 (f ⟨s, i⟩).2).2.idx
    rw [h1]
    have hm2 := (hg (f ⟨s, i⟩).1).2.1 s (f ⟨s, i⟩).2.idx
    omega
  · intro s1 s2 i hag
    have h1 := hfs s1 i
    have h2 := hfs s2 i
    have hm1 := hfm s1 i
    show (g (f ⟨s1, i⟩).1 (f ⟨s1, i⟩).2).1 = (g (f ⟨s2, i⟩).1 (f ⟨s2, i⟩).2).1 ∧
      (g (f ⟨s2, i⟩).1 (f ⟨s2, i⟩).2).2.idx = (g (f ⟨s1, i⟩).1 (f ⟨s1, i⟩).2).2.idx
    rw [h1, h2]
    have hfinal : (f ⟨s1, i⟩).2.idx ≤
        (g (f ⟨s1, i⟩).1 ⟨s1, (f ⟨s1, i⟩).2.idx⟩).2.idx :=
      (hg (f ⟨s1, i⟩).1).2.1 s1 (f ⟨s1, i⟩).2.idx
    have hag : agreeOn s1 s2 i
        (g (f ⟨s1, i⟩).1 ⟨s1, (f ⟨s1, i⟩).2.idx⟩).2.idx := by
      intro j hj hj2
      refine hag j hj ?_
      show j < (g (f ⟨s1, i⟩).1 (f ⟨s1, i⟩).2).2.idx
      rw [h1]
      exact hj2
    have hag1 : agreeOn s1 s2 i (f ⟨s1, i⟩).2.idx := fun j hj hj2 =>
      hag j hj (lt_of_lt_of_le hj2 hfinal)
    obtain ⟨hval, hidx⟩ := hfa s1 s2 i hag1
    have hag2 : agreeOn s1 s2 (f ⟨s1, i⟩).2.idx
        (g (f ⟨s1, i⟩).1 ⟨s1, (f ⟨s1, i⟩).2.idx⟩).2.idx := fun j hj hj2 =>
      hag j (le_trans hm1 hj) hj2
    obtain ⟨hgv, hgi⟩ := (hg (f ⟨s1, i⟩).1).2.2 s1 s2 (f ⟨s1, i⟩).2.idx hag2
    rw [hidx, ← hval]
    exact ⟨hgv, hgi⟩

/-- Drawing one stream value is deterministic. -/
theorem Det_next : Det (fun r => r.next) := by
  refine ⟨fun s i => rfl, fun s i => by simp [Rng.next], ?_⟩
  intro s1 s2 i hag
  have := hag i (le_refl i) (by simp [Rng.next])
  simp [Rng.next, this]

/-- `randint` is deterministic. -/
theorem det_randint (lo hi : Nat) : Det (fun r => r.randint lo hi) := by
  refine ⟨fun s i => rfl, fun s i => by simp [Rng.randint, Rng.next], ?_⟩
  intro s1 s2 i hag
  have := hag i (le_refl i) (by simp [Rng.randint, Rng.next])
  simp [Rng.randint, Rng.next, this]

/-- `random` is deterministic. -/
theorem det_random : Det (fun r => r.random) := by
  refine ⟨fun s i => rfl, fun s i => by simp [Rng.random, Rng.next], ?_⟩
  intro s1 s2 i hag
  have := hag i (le_refl i) (by simp [Rng.random, Rng.next])
  simp [Rng.random, Rng.next, this]

/-- `choice` is deterministic. -/
theorem det_choice {α : Type} (l : List α) (d : α) :
    Det (fun r => r.choice l d) := by
  refine ⟨fun s i => rfl, fun s i => by simp [Rng.choice, Rng.next], ?_⟩
  intro s1 s2 i hag
  have := hag i (le_refl i) (by simp [Rng.choice, Rng.next])
  simp [Rng.choice, Rng.next, this]

/-- The bass pitch draw is deterministic. -/
theorem det_bassNote (cr cf : Int) : Det (fun r => bassNote r cr cf) := by
  refine Det_bind (fun r => r.random)
    (fun q1 r1 =>
      (fun q2 r2 =>
        if q2.blt ⟨5, 10⟩ then
          ((if q1.blt ⟨7, 10⟩ then cr else cf) +
            (r2.choice ([-12, 0, 12] : List Int) 0).1,
           (r2.choice ([-12, 0, 12] : List Int) 0).2)
        else ((if q1.blt ⟨7, 10⟩ then cr else cf) + 0, r2))
        (r1.random).1 (r1.random).2)
    det_random (fun q1 => ?_)
  refine Det_bind (fun r => r.random)
    (fun q2 r2 =>
      if q2.blt ⟨5, 10⟩ then
        ((if q1.blt ⟨7, 10⟩ then cr else cf) +
          (r2.choice ([-12, 0, 12] : List Int) 0).1,
         (r2.choice ([-12, 0, 12] : List Int) 0).2)
      else ((if q1.blt ⟨7, 10⟩ then cr else cf) + 0, r2))
    det_random (fun q2 => ?_)
  by_cases hc : q2.blt ⟨5, 10⟩ = true
  · simp only [hc, if_true]
    exact Det_bind (fun r => r.choice ([-12, 0, 12] : List Int) 0)
      (fun shift r3 => ((if q1.blt ⟨7, 10⟩ then cr else cf) + shift, r3))
      (det_choice _ _) (fun shift => Det_pure _)
  · simp only [Bool.not_eq_true] at hc
    simp only [hc, Bool.false_eq_true, if_false]
    exact Det_pure _

/-- Mapping the result of a deterministic computation. -/
theorem Det_map {α β : Type} (f : Rng → α × Rng) (h : α → β) (hf : Det f) :
    Det (fun r => (h (f r).1, (f r).2)) :=
  Det_bind f (fun a r => (h a, r)) hf (fun a => Det_pure (h a))

/-- Determinism in the consumed prefix for fallible computations: if a run
from `s1` succeeds, a run from any stream agreeing below the final cursor
succeeds with the same value and the same cursor. -/
def DetE {α : Type} (f : Rng → Except String (α × Rng)) : Prop :=
  (∀ s i a rf, f ⟨s, i⟩ = .ok (a, rf) → rf = ⟨s, rf.idx⟩ ∧ i ≤ rf.idx) ∧
  (∀ s1 s2 i a rf, f ⟨s1, i⟩ = .ok (a, rf) → agreeOn s1 s2 i rf.idx →
    f ⟨s2, i⟩ = .ok (a, ⟨s2, rf.idx⟩))

/-- A computation that always fails is vacuously deterministic. -/
theorem DetE_error {α : Type} (e : String) :
    DetE (fun _ => (.error e : Except String (α × Rng))) := by
  constructor
  · intro s i a rf h; cases h
  · intro s1 s2 i a rf h; cases h

/-- An infallible deterministic computation is deterministic as a fallible
one. -/
theorem DetE_of_Det {α : Type} (f : Rng → α × Rng)
    (F : Rng → Except String (α × Rng))
    (hf : Det f) (heq : ∀ r, F r = .ok (f r)) : DetE F := by
  obtain ⟨hs, hm, ha⟩ := hf
  constructor
  · intro s i a rf hok
    have hfe : f ⟨s, i⟩ = (a, rf) := Except.ok.inj ((heq ⟨s, i⟩).symm.trans hok)
    have hrf : rf = (f ⟨s, i⟩).2 := by rw [hfe]
    constructor
    · rw [hrf, hs s i]
    · rw [hrf]
      exact hm s i
  · intro s1 s2 i a rf hok hag
    have hfe : f ⟨s1, i⟩ = (a, rf) := Except.ok.inj ((heq ⟨s1, i⟩).symm.trans hok)
    have hidx : rf.idx = (f ⟨s1, i⟩).2.idx := by rw [hfe]
    have hag2 : agreeOn s1 s2 i (f ⟨s1, i⟩).2.idx := by
      rw [← hidx]; exact hag
    obtain ⟨hv, hi2⟩ := ha s1 s2 i hag2
    rw [heq ⟨s2, i⟩]
    have hgoal : f ⟨s2, i⟩ = (a, ⟨s2, rf.idx⟩) := by
      have hc1 : (f ⟨s2, i⟩).1 = a := by
        rw [← hv, hfe]
      have hc2 : (f ⟨s2, i⟩).2 = ⟨s2, rf.idx⟩ := by
        rw [hs s2 i, hi2, hidx]
      calc f ⟨s2, i⟩ = ((f ⟨s2, i⟩).1, (f ⟨s2, i⟩).2) := rfl
        _ = (a, ⟨s2, rf.idx⟩) := by rw [hc1, hc2]
    rw [hgoal]

/-- An always-succeeding wrapper of a deterministic computation. -/
theorem DetE_ok {α : Type} (f : Rng → α × Rng) (hf : Det f) :
    DetE (fun r => (.ok (f r) : Except String (α × Rng))) :=
  DetE_of_Det f _ hf (fun _ => rfl)

/-- Sequencing an infallible step with a fallible continuation. -/
theorem DetE_bind {α β : Type} (f : Rng → α × Rng)
    (g : α → Rng → Except String (β × Rng))
    (hf : Det f) (hg : ∀ a, DetE (g a)) :
    DetE (fun r => g (f r).1 (f r).2) := by
  obtain ⟨hs, hm, ha⟩ := hf
  constructor
  · intro s i b rf hok
    have h1 := hs s i
    have hok2 : g (f ⟨s, i⟩).1 (f ⟨s, i⟩).2 = .ok (b, rf) := hok
    rw [h1] at hok2
    obtain ⟨hrf, hle⟩ := (hg (f ⟨s, i⟩).1).1 s (f ⟨s, i⟩).2.idx b rf hok2
    exact ⟨hrf, le_trans (hm s i) hle⟩
  · intro s1 s2 i b rf hok hag
    have h1 := hs s1 i
    have h2 := hs s2 i
    have hok2 : g (f ⟨s1, i⟩).1 (f ⟨s1, i⟩).2 = .ok (b, rf) := hok
    rw [h1] at hok2
    obtain ⟨hrf, hle⟩ := (hg (f ⟨s1, i⟩).1).1 s1 (f ⟨s1, i⟩).2.idx b rf hok2
    have hag1 : agreeOn s1 s2 i (f ⟨s1, i⟩).2.idx := fun j hj hj2 =>
      hag j hj (lt_of_lt_of_le hj2 hle)
    obtain ⟨hv, hi2⟩ := ha s1 s2 i hag1
    have hag2 : agreeOn s1 s2 (f ⟨s1, i⟩).2.idx rf.idx := fun j hj hj2 =>
      hag j (le_trans (hm s1 i) hj) hj2
    have hgok := (hg (f ⟨s1, i⟩).1).2 s1 s2 (f ⟨s1, i⟩).2.idx b rf hok2 hag2
    show g (f ⟨s2, i⟩).1 (f ⟨s2, i⟩).2 = .ok (b, ⟨s2, rf.idx⟩)
    rw [h2, ← hv, hi2]
    exact hgok

/-- Exception-propagating sequencing, as the source's fallible statements
compose: an error aborts, a success feeds the produced value and generator
state to the continuation. -/
def exBind {α β : Type} (x : Except String (α × Rng))
    (g : α → Rng → Except String (β × Rng)) : Except String (β × Rng) :=
  match x with
  | .error e => .error e
  | .ok (a, r1) => g a r1

/-- `exBind` propagates errors. -/
theorem exBind_error {α β : Type} (e : String)
    (g : α → Rng → Except String (β × Rng)) :
    exBind (.error e) g = .error e := rfl

/-- `exBind` runs the continuation on success. -/
theorem exBind_ok {α β : Type} (a : α) (r1 : Rng)
    (g : α → Rng → Except String (β × Rng)) :
    exBind (.ok (a, r1)) g = g a r1 := rfl

/-- Sequencing two fallible steps. -/
theorem DetE_bindE {α β : Type} (f : Rng → Except String (α × Rng))
    (g : α → Rng → Except String (β × Rng))
    (hf : DetE f) (hg : ∀ a, DetE (g a)) :
    DetE (fun r => exBind (f r) g) := by
  obtain ⟨hfs, hfa⟩ := hf
  constructor
  · intro s i b rf hok
    have hok2 : exBind (f ⟨s, i⟩) g = Except.ok (b, rf) := hok
    rcases hfe : f ⟨s, i⟩ with e | ⟨a, r1⟩
    · rw [hfe, exBind_error] at hok2; cases hok2
    · rw [hfe, exBind_ok] at hok2
      obtain ⟨hr1, hle1⟩ := hfs s i a r1 hfe
      rw [hr1] at hok2
      obtain ⟨hrf, hle2⟩ := (hg a).1 s r1.idx b rf hok2
      exact ⟨hrf, le_trans hle1 hle2⟩
  · intro s1 s2 i b rf hok hag
    have hok2 : exBind (f ⟨s1, i⟩) g = Except.ok (b, rf) := hok
    rcases hfe : f ⟨s1, i⟩ with e | ⟨a, r1⟩
    · rw [hfe, exBind_error] at hok2; cases hok2
    · rw [hfe, exBind_ok] at hok2
      obtain ⟨hr1, hle1⟩ := hfs s1 i a r1 hfe
      rw [hr1] at hok2
      obtain ⟨hrf, hle2⟩ := (hg a).1 s1 r1.idx b rf hok2
      have hag1 : agreeOn s1 s2 i r1.idx := fun j hj hj2 =>
        hag j hj (lt_of_lt_of_le hj2 hle2)
      have hfok2 := hfa s1 s2 i a r1 hfe hag1
      have hag2 : agreeOn s1 s2 r1.idx rf.idx := fun j hj hj2 =>
        hag j (le_trans hle1 hj) hj2
      have hgok := (hg a).2 s1 s2 r1.idx b rf hok2 hag2
      show exBind (f ⟨s2, i⟩) g = .ok (b, ⟨s2, rf.idx⟩)
      rw [hfok2, exBind_ok]
      exact hgok

/-- One Fisher-Yates step is deterministic. -/
theorem det_shuffleStep {α : Type} [Inhabited α] (l : List α) (i : Nat) :
    Det (fun r => r.shuffleStep l i) := by
  refine ⟨fun s j => rfl, fun s j => by simp [Rng.shuffleStep, Rng.next], ?_⟩
  intro s1 s2 j hag
  have := hag j (le_refl j) (by simp [Rng.shuffleStep, Rng.next])
  simp [Rng.shuffleStep, Rng.next, this]

/-- The Fisher-Yates pass is deterministic. -/
theorem det_shuffleAux {α : Type} [Inhabited α] :
    ∀ (i : Nat) (l : List α), Det (fun r => r.shuffleAux l i) := by
  intro i
  induction i with
  | zero => intro l; exact Det_pure l
  | succ i ih =>
    intro l
    exact Det_bind (fun r => r.shuffleStep l (i + 1))
      (fun l1 r1 => r1.shuffleAux l1 i) (det_shuffleStep l (i + 1)) (fun l1 => ih l1)

/-- `random.shuffle` is deterministic. -/
theorem det_shuffle {α : Type} [Inhabited α] (l : List α) :
    Det (fun r => r.shuffle l) :=
  det_shuffleAux (l.length - 1) l

/-- `build_triads` is deterministic. -/
theorem det_build_triads (b : Int) : Det (fun r => build_triads r b) := by
  refine Det_bind (fun r => r.random)
    (fun q r1 =>
      if q.blt ⟨5, 10⟩ then ([b, b + 4, b + 7], r1) else ([b, b + 3, b + 7], r1))
    det_random (fun q => ?_)
  by_cases hc : q.blt ⟨5, 10⟩ = true
  · simp only [hc, if_true]
    exact Det_pure _
  · simp only [Bool.not_eq_true] at hc
    simp only [hc, Bool.false_eq_true, if_false]
    exact Det_pure _

/-- The chord loop is deterministic. -/
theorem det_chordLoop (intervals : List Int) (base : Int) :
    ∀ n : Nat, Det (fun r => chordLoop r intervals base n) := by
  intro n
  induction n with
  | zero => exact Det_pure []
  | succ k ih =>
    refine Det_bind (fun r => r.choice intervals 0)
      (fun interval r1 =>
        (fun triad r2 =>
          (fun rest r3 => (triad :: rest, r3))
            (chordLoop r2 intervals base k).1 (chordLoop r2 intervals base k).2)
          (build_triads r1 (base + interval)).1 (build_triads r1 (base + interval)).2)
      (det_choice intervals 0) (fun interval => ?_)
    refine Det_bind (fun r => build_triads r (base + interval))
      (fun triad r2 =>
        (fun rest r3 => (triad :: rest, r3))
          (chordLoop r2 intervals base k).1 (chordLoop r2 intervals base k).2)
      (det_build_triads (base + interval)) (fun triad => ?_)
    exact Det_bind (fun r => chordLoop r intervals base k)
      (fun rest r3 => (triad :: rest, r3)) ih (fun rest => Det_pure _)

/-- The chord progression generator is deterministic. -/
theorem det_progression (m : Nat) :
    Det (fun r => get_random_chord_progression r m) := by
  refine Det_bind (fun r => r.choice note_names "C")
    (fun root_choice r1 =>
      (fun octave_choice r2 =>
        (fun mode r3 =>
          (fun chords r4 =>
            ((chords, root_choice ++ toString octave_choice ++ " " ++ mode.1), r4))
            (chordLoop r3 mode.2 (note_name_to_midi root_choice octave_choice) m).1
            (chordLoop r3 mode.2 (note_name_to_midi root_choice octave_choice) m).2)
          (r2.choice possible_modes ("major", [0, 2, 4, 5, 7, 9, 11])).1
          (r2.choice possible_modes ("major", [0, 2, 4, 5, 7, 9, 11])).2)
        (r1.randint 2 5).1 (r1.randint 2 5).2)
    (det_choice note_names "C") (fun root_choice => ?_)
  refine Det_bind (fun r => r.randint 2 5)
    (fun octave_choice r2 =>
      (fun mode r3 =>
        (fun chords r4 =>
          ((chords, root_choice ++ toString octave_choice ++ " " ++ mode.1), r4))
          (chordLoop r3 mode.2 (note_name_to_midi root_choice octave_choice) m).1
          (chordLoop r3 mode.2 (note_name_to_midi root_choice octave_choice) m).2)
        (r2.choice possible_modes ("major", [0, 2, 4, 5, 7, 9, 11])).1
        (r2.choice possible_modes ("major", [0, 2, 4, 5, 7, 9, 11])).2)
    (det_randint 2 5) (fun octave_choice => ?_)
  refine Det_bind (fun r => r.choice possible_modes ("major", [0, 2, 4, 5, 7, 9, 11]))
    (fun mode r3 =>
      (fun chords r4 =>
        ((chords, root_choice ++ toString octave_choice ++ " " ++ mode.1), r4))
        (chordLoop r3 mode.2 (note_name_to_midi root_choice octave_choice) m).1
        (chordLoop r3 mode.2 (note_name_to_midi root_choice octave_choice) m).2)
    (det_choice possible_modes ("major", [0, 2, 4, 5, 7, 9, 11])) (fun mode => ?_)
  exact Det_bind (fun r => chordLoop r mode.2 (note_name_to_midi root_choice octave_choice) m)
    (fun chords r4 =>
      ((chords, root_choice ++ toString octave_choice ++ " " ++ mode.1), r4))
    (det_chordLoop _ _ m) (fun chords => Det_pure _)

/-- The random-hit loop of the drum generator is deterministic. -/
theorem det_drumHits (ms b tpb : Nat) :
    ∀ k : Nat, Det (fun r => drumHits r ms b tpb k) := by
  intro k
  induction k with
  | zero => exact Det_pure []
  | succ k ih =>
    refine Det_bind (fun r => r.choice DRUM_NOTES 35)
      (fun note r1 =>
        (fun q r2 =>
          (fun velocity r3 =>
            (fun rest r4 =>
              (add_note [] note velocity (ms + (q.mulNat b).floorMulNat tpb)
                (tenthBeat tpb) 9 ++ rest, r4))
              (drumHits r3 ms b tpb k).1 (drumHits r3 ms b tpb k).2)
            (r2.randint 40 120).1 (r2.randint 40 120).2)
          (r1.random).1 (r1.random).2)
      (det_choice DRUM_NOTES 35) (fun note => ?_)
    refine Det_bind (fun r => r.random)
      (fun q r2 =>
        (fun velocity r3 =>
          (fun rest r4 =>
            (add_note [] note velocity (ms + (q.mulNat b).floorMulNat tpb)
              (tenthBeat tpb) 9 ++ rest, r4))
            (drumHits r3 ms b tpb k).1 (drumHits r3 ms b tpb k).2)
          (r2.randint 40 120).1 (r2.randint 40 120).2)
      det_random (fun q => ?_)
    refine Det_bind (fun r => r.randint 40 120)
      (fun velocity r3 =>
        (fun rest r4 =>
          (add_note [] note velocity (ms + (q.mulNat b).floorMulNat tpb)
            (tenthBeat tpb) 9 ++ rest, r4))
          (drumHits r3 ms b tpb k).1 (drumHits r3 ms b tpb k).2)
      (det_randint 40 120) (fun velocity => ?_)
    exact Det_bind (fun r => drumHits r ms b tpb k)
      (fun rest r4 =>
        (add_note [] note velocity (ms + (q.mulNat b).floorMulNat tpb)
          (tenthBeat tpb) 9 ++ rest, r4))
      ih (fun rest => Det_pure _)

/-- One drum measure is deterministic. -/
theorem det_drumMeasure (idx b tpb : Nat) :
    Det (fun r => drumMeasure r idx b tpb) := by
  refine Det_bind (fun r => r.randint 2 8)
    (fun random_hits r1 =>
      (fun hits r2 =>
        ((if b = 4 then
            add_note [] 36 100 (idx * b * tpb) (tenthBeat tpb) 9 ++
              add_note [] 38 100 (idx * b * tpb + 2 * tpb) (tenthBeat tpb) 9
          else []) ++ hits, r2))
        (drumHits r1 (idx * b * tpb) b tpb random_hits).1
        (drumHits r1 (idx * b * tpb) b tpb random_hits).2)
    (det_randint 2 8) (fun random_hits => ?_)
  exact Det_bind (fun r => drumHits r (idx * b * tpb) b tpb random_hits)
    (fun hits r2 =>
      ((if b = 4 then
          add_note [] 36 100 (idx * b * tpb) (tenthBeat tpb) 9 ++
            add_note [] 38 100 (idx * b * tpb + 2 * tpb) (tenthBeat tpb) 9
        else []) ++ hits, r2))
    (det_drumHits _ _ _ _) (fun hits => Det_pure _)

/-- The measure loop of the drum generator is deterministic. -/
theorem det_drumMeasures (b tpb : Nat) :
    ∀ (k i : Nat), Det (fun r => drumMeasures r b tpb k i) := by
  intro k
  induction k with
  | zero => intro i; exact Det_pure []
  | succ k ih =>
    intro i
    refine Det_bind (fun r => drumMeasure r i b tpb)
      (fun evs r1 =>
        (fun rest r2 => (evs ++ rest, r2))
          (drumMeasures r1 b tpb k (i + 1)).1 (drumMeasures r1 b tpb k (i + 1)).2)
      (det_drumMeasure i b tpb) (fun evs => ?_)
    exact Det_bind (fun r => drumMeasures r b tpb k (i + 1))
      (fun rest r2 => (evs ++ rest, r2)) (ih (i + 1)) (fun rest => Det_pure _)

/-- The drum generator is deterministic. -/
theorem det_create_drum (n b tpb : Nat) :
    Det (fun r => create_drum_track_chaos r n b tpb) :=
  det_drumMeasures b tpb n 0

/-- The bass slot loop is deterministic. -/
theorem det_bassSlots (cr cf : Int) (sl : Nat) :
    ∀ (k t : Nat), Det (fun r => bassSlots r cr cf sl k t) := by
  intro k
  induction k with
  | zero => intro t; exact Det_pure []
  | succ k ih =>
    intro t
    refine Det_bind (fun r => bassNote r cr cf)
      (fun note r1 =>
        (fun velocity r2 =>
          (fun rest r3 => (add_note [] note velocity t sl 1 ++ rest, r3))
            (bassSlots r2 cr cf sl k (t + sl)).1 (bassSlots r2 cr cf sl k (t + sl)).2)
          (r1.randint 50 100).1 (r1.randint 50 100).2)
      (det_bassNote cr cf) (fun note => ?_)
    refine Det_bind (fun r => r.randint 50 100)
      (fun velocity r2 =>
        (fun rest r3 => (add_note [] note velocity t sl 1 ++ rest, r3))
          (bassSlots r2 cr cf sl k (t + sl)).1 (bassSlots r2 cr cf sl k (t + sl)).2)
      (det_randint 50 100) (fun velocity => ?_)
    exact Det_bind (fun r => bassSlots r cr cf sl k (t + sl))
      (fun rest r3 => (add_note [] note velocity t sl 1 ++ rest, r3))
      (ih (t + sl)) (fun rest => Det_pure _)

/-- One bass chord is deterministic. -/
theorem det_bassChord (chord : List Int) (L t : Nat) :
    Det (fun r => bassChord r chord L t) := by
  refine Det_bind (fun r => r.randint 1 5)
    (fun subdivs r1 =>
      bassSlots r1 (chord.getD 0 0) (chord.getD 2 0)
        (bass_sub_tick_length L subdivs) subdivs t)
    (det_randint 1 5) (fun subdivs => ?_)
  exact det_bassSlots _ _ _ subdivs t

/-- The bass chord loop is deterministic. -/
theorem det_bassChords (L : Nat) :
    ∀ (chords : List (List Int)) (t : Nat),
      Det (fun r => bassChords r L chords t) := by
  intro chords
  induction chords with
  | nil => intro t; exact Det_pure []
  | cons chord rest ih =>
    intro t
    refine Det_bind (fun r => bassChord r chord L t)
      (fun evs r1 =>
        (fun restEvs r2 => (evs ++ restEvs, r2))
          (bassChords r1 L rest (t + L)).1 (bassChords r1 L rest (t + L)).2)
      (det_bassChord chord L t) (fun evs => ?_)
    exact Det_bind (fun r => bassChords r L rest (t + L))
      (fun restEvs r2 => (evs ++ restEvs, r2)) (ih (t + L)) (fun restEvs => Det_pure _)

/-- The bass generator is deterministic. -/
theorem det_create_bass (chords : List (List Int)) (b tpb : Nat) :
    Det (fun r => create_bass_track_chaos r chords b tpb) :=
  det_bassChords (b * tpb) chords 0

/-- The note loop of one harmony press is deterministic. -/
theorem det_harmonyPressNotes (cl pl : Nat) :
    ∀ (notes : List Int) (t : Nat),
      Det (fun r => (((harmonyPressNotes r cl pl notes t).1,
        (harmonyPressNotes r cl pl notes t).2.1),
        (harmonyPressNotes r cl pl notes t).2.2)) := by
  intro notes
  induction notes with
  | nil => intro t; exact Det_pure ([], t)
  | cons note rest ih =>
    intro t
    refine Det_bind (fun r => r.randint 40 90)
      (fun velocity r1 =>
        (fun ab r2 =>
          ((add_note [] note velocity t (pl / cl) 2 ++ ab.1, ab.2), r2))
          (((harmonyPressNotes r1 cl pl rest (t + pl / cl)).1,
            (harmonyPressNotes r1 cl pl rest (t + pl / cl)).2.1))
          ((harmonyPressNotes r1 cl pl rest (t + pl / cl)).2.2))
      (det_randint 40 90) (fun velocity => ?_)
    exact Det_bind
      (fun r => (((harmonyPressNotes r cl pl rest (t + pl / cl)).1,
        (harmonyPressNotes r cl pl rest (t + pl / cl)).2.1),
        (harmonyPressNotes r cl pl rest (t + pl / cl)).2.2))
      (fun ab r2 => ((add_note [] note velocity t (pl / cl) 2 ++ ab.1, ab.2), r2))
      (ih (t + pl / cl)) (fun ab => Det_pure _)

/-- The press loop of one harmony chord is deterministic. -/
theorem det_harmonyPresses (chord : List Int) (pl : Nat) :
    ∀ (k t : Nat),
      Det (fun r => (((harmonyPresses r chord pl k t).1,
        (harmonyPresses r chord pl k t).2.1),
        (harmonyPresses r chord pl k t).2.2)) := by
  intro k
  induction k with
  | zero => intro t; exact Det_pure ([], t)
  | succ k ih =>
    intro t
    refine Det_bind (fun r => r.shuffle chord)
      (fun chord_notes r1 =>
        (fun ab r2 =>
          (fun cd r3 => ((ab.1 ++ cd.1, cd.2), r3))
            (((harmonyPresses r2 chord pl k ab.2).1,
              (harmonyPresses r2 chord pl k ab.2).2.1))
            ((harmonyPresses r2 chord pl k ab.2).2.2))
          (((harmonyPressNotes r1 chord_notes.length pl chord_notes t).1,
            (harmonyPressNotes r1 chord_notes.length pl chord_notes t).2.1))
          ((harmonyPressNotes r1 chord_notes.length pl chord_notes t).2.2))
      (det_shuffle chord) (fun chord_notes => ?_)
    refine Det_bind
      (fun r => (((harmonyPressNotes r chord_notes.length pl chord_notes t).1,
        (harmonyPressNotes r chord_notes.length pl chord_notes t).2.1),
        (harmonyPressNotes r chord_notes.length pl chord_notes t).2.2))
      (fun ab r2 =>
        (fun cd r3 => ((ab.1 ++ cd.1, cd.2), r3))
          (((harmonyPresses r2 chord pl k ab.2).1,
            (harmonyPresses r2 chord pl k ab.2).2.1))
          ((harmonyPresses r2 chord pl k ab.2).2.2))
      (det_harmonyPressNotes chord_notes.length pl chord_notes t) (fun ab => ?_)
    exact Det_bind
      (fun r => (((harmonyPresses r chord pl k ab.2).1,
        (harmonyPresses r chord pl k ab.2).2.1),
        (harmonyPresses r chord pl k ab.2).2.2))
      (fun cd r3 => ((ab.1 ++ cd.1, cd.2), r3))
      (ih ab.2) (fun cd => Det_pure _)

/-- One harmony chord is deterministic as a fallible computation. -/
theorem detE_harmonyChord (chord : List Int) (L t : Nat) :
    DetE (fun r => harmonyChord r chord L t) := by
  refine DetE_of_Det
    (fun r =>
      (fun presses r1 =>
        ((harmonyPresses r1 chord (L / presses) presses t).1,
         (harmonyPresses r1 chord (L / presses) presses t).2.2))
        (r.randint 1 3).1 (r.randint 1 3).2)
    _ ?_ (fun r => harmonyChord_eq r chord L t)
  refine Det_bind (fun r => r.randint 1 3)
    (fun presses r1 =>
      ((harmonyPresses r1 chord (L / presses) presses t).1,
       (harmonyPresses r1 chord (L / presses) presses t).2.2))
    (det_randint 1 3) (fun presses => ?_)
  exact Det_map
    (fun r => (((harmonyPresses r chord (L / presses) presses t).1,
      (harmonyPresses r chord (L / presses) presses t).2.1),
      (harmonyPresses r chord (L / presses) presses t).2.2))
    (fun ab => ab.1) (det_harmonyPresses chord (L / presses) presses t)

/-- The cons case of the harmony chord loop written with explicit
exception-propagating sequencing. -/
theorem harmonyChords_exBind (L : Nat) (chord : List Int)
    (rest : List (List Int)) (t : Nat) (r : Rng) :
    harmonyChords r L (chord :: rest) t =
      exBind (harmonyChord r chord L t)
        (fun evs r1 => exBind (harmonyChords r1 L rest (t + L))
          (fun restEvs r2 => .ok (evs ++ restEvs, r2))) := by
  rcases h1 : harmonyChord r chord L t with e | ⟨evs, r1⟩
  · simp [harmonyChords, h1, exBind]
  · rcases h2 : harmonyChords r1 L rest (t + L) with e2 | ⟨restEvs, r2⟩ <;>
      simp [harmonyChords, h1, h2, exBind]

/-- The harmony chord loop is deterministic as a fallible computation. -/
theorem detE_harmonyChords (L : Nat) :
    ∀ (chords : List (List Int)) (t : Nat),
      DetE (fun r => harmonyChords r L chords t) := by
  intro chords
  induction chords with
  | nil =>
    intro t
    exact DetE_ok (fun r => ([], r)) (Det_pure [])
  | cons chord rest ih =>
    intro t
    have hbody : (fun r => harmonyChords r L (chord :: rest) t) =
        (fun r => exBind (harmonyChord r chord L t)
          (fun evs r1 => exBind (harmonyChords r1 L rest (t + L))
            (fun restEvs r2 => .ok (evs ++ restEvs, r2)))) := by
      funext r
      exact harmonyChords_exBind L chord rest t r
    rw [hbody]
    refine DetE_bindE (fun r => harmonyChord r chord L t)
      (fun evs r1 => exBind (harmonyChords r1 L rest (t + L))
        (fun restEvs r2 => .ok (evs ++ restEvs, r2)))
      (detE_harmonyChord chord L t) (fun evs => ?_)
    refine DetE_bindE (fun r => harmonyChords r L rest (t + L))
      (fun restEvs r2 => .ok (evs ++ restEvs, r2))
      (ih (t + L)) (fun restEvs => ?_)
    exact DetE_ok (fun r => (evs ++ restEvs, r)) (Det_pure _)

/-- The harmony generator is deterministic as a fallible computation. -/
theorem detE_create_harmony (chords : List (List Int)) (b tpb : Nat) :
    DetE (fun r => create_harmony_track_chaos r chords b tpb) :=
  detE_harmonyChords (b * tpb) chords 0

/-- One phrase-index draw loop is deterministic. -/
theorem det_phraseLoop (hi : Nat) :
    ∀ k : Nat, Det (fun r => phraseLoop r hi k) := by
  intro k
  induction k with
  | zero => exact Det_pure []
  | succ k ih =>
    refine Det_bind (fun r => r.randint 0 hi)
      (fun i r1 =>
        (fun rest r2 => (i :: rest, r2))
          (phraseLoop r1 hi k).1 (phraseLoop r1 hi k).2)
      (det_randint 0 hi) (fun i => ?_)
    exact Det_bind (fun r => phraseLoop r hi k)
      (fun rest r2 => (i :: rest, r2)) ih (fun rest => Det_pure _)

/-- One melody note is deterministic. -/
theorem det_melodyNote (phrase : List Nat) (scale_notes : List Int)
    (durations_list : List PyFloat) (li st tpb ct : Nat) :
    Det (fun r =>
      (((melodyNote r phrase scale_notes durations_list li st tpb ct).1,
        (melodyNote r phrase scale_notes durations_list li st tpb ct).2.1),
        (melodyNote r phrase scale_notes durations_list li st tpb ct).2.2)) := by
  refine Det_bind (fun r => r.choice phrase 0)
    (fun note_idx r1 =>
      (fun q1 r2 =>
        (fun nr : Int × Rng =>
          (fun velocity r4 =>
            ((add_note [] nr.1 velocity ct
                (min ((durations_list.getD (li % durations_list.length) ⟨0, 1⟩).floorMulNat tpb) st) 0,
              min ((durations_list.getD (li % durations_list.length) ⟨0, 1⟩).floorMulNat tpb) st), r4))
            (nr.2.randint 60 127).1 (nr.2.randint 60 127).2)
          (if q1.blt ⟨2, 10⟩ then (scale_notes.getD note_idx 0 + 12, r2)
           else
             (fun q2 r2a =>
               if q2.blt ⟨2, 10⟩ then (scale_notes.getD note_idx 0 - 12, r2a)
               else (scale_notes.getD note_idx 0, r2a))
             (r2.random).1 (r2.random).2))
        (r1.random).1 (r1.random).2)
    (det_choice phrase 0) (fun note_idx => ?_)
  refine Det_bind (fun r => r.random)
    (fun q1 r2 =>
      (fun nr : Int × Rng =>
        (fun velocity r4 =>
          ((add_note [] nr.1 velocity ct
              (min ((durations_list.getD (li % durations_list.length) ⟨0, 1⟩).floorMulNat tpb) st) 0,
            min ((durations_list.getD (li % durations_list.length) ⟨0, 1⟩).floorMulNat tpb) st), r4))
          (nr.2.randint 60 127).1 (nr.2.randint 60 127).2)
        (if q1.blt ⟨2, 10⟩ then (scale_notes.getD note_idx 0 + 12, r2)
         else
           (fun q2 r2a =>
             if q2.blt ⟨2, 10⟩ then (scale_notes.getD note_idx 0 - 12, r2a)
             else (scale_notes.getD note_idx 0, r2a))
           (r2.random).1 (r2.random).2))
    det_random (fun q1 => ?_)
  by_cases h1 : q1.blt ⟨2, 10⟩ = true
  · simp only [h1, if_true]
    exact Det_bind (fun r => r.randint 60 127)
      (fun velocity r4 =>
        ((add_note [] (scale_notes.getD note_idx 0 + 12) velocity ct
            (min ((durations_list.getD (li % durations_list.length) ⟨0, 1⟩).floorMulNat tpb) st) 0,
          min ((durations_list.getD (li % durations_list.length) ⟨0, 1⟩).floorMulNat tpb) st), r4))
      (det_randint 60 127) (fun velocity => Det_pure _)
  · simp only [Bool.not_eq_true] at h1
    simp only [h1, Bool.false_eq_true, if_false]
    refine Det_bind (fun r => r.random)
      (fun q2 r2a =>
        (fun nr : Int × Rng =>
          (fun velocity r4 =>
            ((add_note [] nr.1 velocity ct
                (min ((durations_list.getD (li % durations_list.length) ⟨0, 1⟩).floorMulNat tpb) st) 0,
              min ((durations_list.getD (li % durations_list.length) ⟨0, 1⟩).floorMulNat tpb) st), r4))
            (nr.2.randint 60 127).1 (nr.2.randint 60 127).2)
          (if q2.blt ⟨2, 10⟩ then (scale_notes.getD note_idx 0 - 12, r2a)
           else (scale_notes.getD note_idx 0, r2a)))
      det_random (fun q2 => ?_)
    by_cases h2 : q2.blt ⟨2, 10⟩ = true
    · simp only [h2, if_true]
      exact Det_bind (fun r => r.randint 60 127)
        (fun velocity r4 =>
          ((add_note [] (scale_notes.getD note_idx 0 - 12) velocity ct
              (min ((durations_list.getD (li % durations_list.length) ⟨0, 1⟩).floorMulNat tpb) st) 0,
            min ((durations_list.getD (li % durations_list.length) ⟨0, 1⟩).floorMulNat tpb) st), r4))
        (det_randint 60 127) (fun velocity => Det_pure _)
    · simp only [Bool.not_eq_true] at h2
      simp only [h2, Bool.false_eq_true, if_false]
      exact Det_bind (fun r => r.randint 60 127)
        (fun velocity r4 =>
          ((add_note [] (scale_notes.getD note_idx 0) velocity ct
              (min ((durations_list.getD (li % durations_list.length) ⟨0, 1⟩).floorMulNat tpb) st) 0,
            min ((durations_list.getD (li % durations_list.length) ⟨0, 1⟩).floorMulNat tpb) st), r4))
        (det_randint 60 127) (fun velocity => Det_pure _)

/-- The per-chord melody note loop is deterministic. -/
theorem det_melodyNotes (phrase : List Nat) (scale_notes : List Int)
    (durations_list : List PyFloat) (st tpb : Nat) :
    ∀ (k li ct : Nat),
      Det (fun r =>
        (((melodyNotes r phrase scale_notes durations_list st tpb k li ct).1,
          (melodyNotes r phrase scale_notes durations_list st tpb k li ct).2.1,
          (melodyNotes r phrase scale_notes durations_list st tpb k li ct).2.2.1),
          (melodyNotes r phrase scale_notes durations_list st tpb k li ct).2.2.2)) := by
  intro k
  induction k with
  | zero => intro li ct; exact Det_pure ([], li, ct)
  | succ k ih =>
    intro li ct
    refine Det_bind
      (fun r =>
        (((melodyNote r phrase scale_notes durations_list li st tpb ct).1,
          (melodyNote r phrase scale_notes durations_list li st tpb ct).2.1),
          (melodyNote r phrase scale_notes durations_list li st tpb ct).2.2))
      (fun cd r1 =>
        (fun rest3 r2 => ((cd.1 ++ rest3.1, rest3.2.1, rest3.2.2), r2))
          (((melodyNotes r1 phrase scale_notes durations_list st tpb k (li + 1) (ct + cd.2)).1,
            (melodyNotes r1 phrase scale_notes durations_list st tpb k (li + 1) (ct + cd.2)).2.1,
            (melodyNotes r1 phrase scale_notes durations_list st tpb k (li + 1) (ct + cd.2)).2.2.1))
          ((melodyNotes r1 phrase scale_notes durations_list st tpb k (li + 1) (ct + cd.2)).2.2.2))
      (det_melodyNote phrase scale_notes durations_list li st tpb ct) (fun cd => ?_)
    exact Det_bind
      (fun r =>
        (((melodyNotes r phrase scale_notes durations_list st tpb k (li + 1) (ct + cd.2)).1,
          (melodyNotes r phrase scale_notes durations_list st tpb k (li + 1) (ct + cd.2)).2.1,
          (melodyNotes r phrase scale_notes durations_list st tpb k (li + 1) (ct + cd.2)).2.2.1),
          (melodyNotes r phrase scale_notes durations_list st tpb k (li + 1) (ct + cd.2)).2.2.2))
      (fun rest3 r2 => ((cd.1 ++ rest3.1, rest3.2.1, rest3.2.2), r2))
      (ih (li + 1) (ct + cd.2)) (fun rest3 => Det_pure _)

/-- The melody chord loop is deterministic. -/
theorem det_melodyChords (phrase : List Nat) (scale_notes : List Int)
    (durations_list : List PyFloat) (clt tpb : Nat) :
    ∀ (chords : List (List Int)) (li ct : Nat),
      Det (fun r =>
        (((melodyChords r phrase scale_notes durations_list clt tpb chords li ct).1,
          (melodyChords r phrase scale_notes durations_list clt tpb chords li ct).2.1,
          (melodyChords r phrase scale_notes durations_list clt tpb chords li ct).2.2.1),
          (melodyChords r phrase scale_notes durations_list clt tpb chords li ct).2.2.2)) := by
  intro chords
  induction chords with
  | nil => intro li ct; exact Det_pure ([], li, ct)
  | cons chord rest ih =>
    intro li ct
    refine Det_bind (fun r => r.randint 2 6)
      (fun n r1 =>
        (fun evs3 r2 =>
          (fun rest3 r3 => ((evs3.1 ++ rest3.1, rest3.2.1, rest3.2.2), r3))
            (((melodyChords r2 phrase scale_notes durations_list clt tpb rest evs3.2.1 evs3.2.2).1,
              (melodyChords r2 phrase scale_notes durations_list clt tpb rest evs3.2.1 evs3.2.2).2.1,
              (melodyChords r2 phrase scale_notes durations_list clt tpb rest evs3.2.1 evs3.2.2).2.2.1))
            ((melodyChords r2 phrase scale_notes durations_list clt tpb rest evs3.2.1 evs3.2.2).2.2.2))
          (((melodyNotes r1 phrase scale_notes durations_list (melody_sub_tick clt n) tpb n li ct).1,
            (melodyNotes r1 phrase scale_notes durations_list (melody_sub_tick clt n) tpb n li ct).2.1,
            (melodyNotes r1 phrase scale_notes durations_list (melody_sub_tick clt n) tpb n li ct).2.2.1))
          ((melodyNotes r1 phrase scale_notes durations_list (melody_sub_tick clt n) tpb n li ct).2.2.2))
      (det_randint 2 6) (fun n => ?_)
    refine Det_bind
      (fun r =>
        (((melodyNotes r phrase scale_notes durations_list (melody_sub_tick clt n) tpb n li ct).1,
          (melodyNotes r phrase scale_notes durations_list (melody_sub_tick clt n) tpb n li ct).2.1,
          (melodyNotes r phrase scale_notes durations_list (melody_sub_tick clt n) tpb n li ct).2.2.1),
          (melodyNotes r phrase scale_notes durations_list (melody_sub_tick clt n) tpb n li ct).2.2.2))
      (fun evs3 r2 =>
        (fun rest3 r3 => ((evs3.1 ++ rest3.1, rest3.2.1, rest3.2.2), r3))
          (((melodyChords r2 phrase scale_notes durations_list clt tpb rest evs3.2.1 evs3.2.2).1,
            (melodyChords r2 phrase scale_notes durations_list clt tpb rest evs3.2.1 evs3.2.2).2.1,
            (melodyChords r2 phrase scale_notes durations_list clt tpb rest evs3.2.1 evs3.2.2).2.2.1))
          ((melodyChords r2 phrase scale_notes durations_list clt tpb rest evs3.2.1 evs3.2.2).2.2.2))
      (det_melodyNotes phrase scale_notes durations_list (melody_sub_tick clt n) tpb n li ct)
      (fun evs3 => ?_)
    exact Det_bind
      (fun r =>
        (((melodyChords r phrase scale_notes durations_list clt tpb rest evs3.2.1 evs3.2.2).1,
          (melodyChords r phrase scale_notes durations_list clt tpb rest evs3.2.1 evs3.2.2).2.1,
          (melodyChords r phrase scale_notes durations_list clt tpb rest evs3.2.1 evs3.2.2).2.2.1),
          (melodyChords r phrase scale_notes durations_list clt tpb rest evs3.2.1 evs3.2.2).2.2.2))
      (fun rest3 r3 => ((evs3.1 ++ rest3.1, rest3.2.1, rest3.2.2), r3))
      (ih evs3.2.1 evs3.2.2) (fun rest3 => Det_pure _)

/-- The melody generator is deterministic. -/
theorem det_create_melody (chords : List (List Int)) (scale_notes : List Int)
    (b tpb : Nat) :
    Det (fun r => create_melody_track_chaos r chords scale_notes b tpb) := by
  refine Det_bind (fun r => r.randint 2 5)
    (fun depth r1 =>
      (fun phrase_length r2 =>
        (fun phrase r3 =>
          ((melodyChords r3 phrase scale_notes (lsystem_durations depth) (b * tpb) tpb chords 0 0).1,
           (melodyChords r3 phrase scale_notes (lsystem_durations depth) (b * tpb) tpb chords 0 0).2.2.2))
          (phraseLoop r2 (scale_notes.length - 1) phrase_length).1
          (phraseLoop r2 (scale_notes.length - 1) phrase_length).2)
        (r1.randint 3 7).1 (r1.randint 3 7).2)
    (det_randint 2 5) (fun depth => ?_)
  refine Det_bind (fun r => r.randint 3 7)
    (fun phrase_length r2 =>
      (fun phrase r3 =>
        ((melodyChords r3 phrase scale_notes (lsystem_durations depth) (b * tpb) tpb chords 0 0).1,
         (melodyChords r3 phrase scale_notes (lsystem_durations depth) (b * tpb) tpb chords 0 0).2.2.2))
        (phraseLoop r2 (scale_notes.length - 1) phrase_length).1
        (phraseLoop r2 (scale_notes.length - 1) phrase_length).2)
    (det_randint 3 7) (fun phrase_length => ?_)
  refine Det_bind (fun r => phraseLoop r (scale_notes.length - 1) phrase_length)
    (fun phrase r3 =>
      ((melodyChords r3 phrase scale_notes (lsystem_durations depth) (b * tpb) tpb chords 0 0).1,
       (melodyChords r3 phrase scale_notes (lsystem_durations depth) (b * tpb) tpb chords 0 0).2.2.2))
    (det_phraseLoop (scale_notes.length - 1) phrase_length) (fun phrase => ?_)
  exact Det_map
    (fun r =>
      (((melodyChords r phrase scale_notes (lsystem_durations depth) (b * tpb) tpb chords 0 0).1,
        (melodyChords r phrase scale_notes (lsystem_durations depth) (b * tpb) tpb chords 0 0).2.1,
        (melodyChords r phrase scale_notes (lsystem_durations depth) (b * tpb) tpb chords 0 0).2.2.1),
        (melodyChords r phrase scale_notes (lsystem_durations depth) (b * tpb) tpb chords 0 0).2.2.2))
    (fun t3 => t3.1)
    (det_melodyChords phrase scale_notes (lsystem_durations depth) (b * tpb) tpb chords 0 0)

set_option maxHeartbeats 1600000 in
/-- The melody scale builder of the main script is deterministic. -/
theorem det_buildScaleNotes : Det (fun r => buildScaleNotes r) := by
  refine Det_bind (fun r => r.choice scale_mode_choices [0, 2, 4, 5, 7, 9, 11])
    (fun smi r1 =>
      (fun root r2 =>
        (fun octv r3 =>
          (([0, 1] : List Int).flatMap
              (fun oct_shift => smi.map
                (fun interval => note_name_to_midi root octv + interval + 12 * oct_shift)),
            r3))
          (r2.randint 3 5).1 (r2.randint 3 5).2)
        (r1.choice note_names "C").1 (r1.choice note_names "C").2)
    (det_choice scale_mode_choices [0, 2, 4, 5, 7, 9, 11]) (fun smi => ?_)
  refine Det_bind (fun r => r.choice note_names "C")
    (fun root r2 =>
      (fun octv r3 =>
        (([0, 1] : List Int).flatMap
            (fun oct_shift => smi.map
              (fun interval => note_name_to_midi root octv + interval + 12 * oct_shift)),
          r3))
        (r2.randint 3 5).1 (r2.randint 3 5).2)
    (det_choice note_names "C") (fun root => ?_)
  exact Det_bind (fun r => r.randint 3 5)
    (fun octv r3 =>
      (([0, 1] : List Int).flatMap
          (fun oct_shift => smi.map
            (fun interval => note_name_to_midi root octv + interval + 12 * oct_shift)),
        r3))
    (det_randint 3 5) (fun octv => Det_pure _)

/-- One serialized track is deterministic. -/
theorem det_midiTrackFor (name : String) (events : List TimedEvent) :
    Det (fun r => midiTrackFor r name events) := by
  refine Det_bind
    (fun r =>
      if name = "Drums" then (([MidoMsg.program_change 0 9 0] : List MidoMsg), r)
      else
        (fun program_num (ra : Rng) =>
          ([MidoMsg.program_change program_num (trackChannel name) 0], ra))
        (r.choice RANDOM_INSTRUMENTS 0).1 (r.choice RANDOM_INSTRUMENTS 0).2)
    (fun opening r1 =>
      (opening ++ deltaWalk (sortEvents events) 0 ++ [MidoMsg.end_of_track 0], r1))
    ?_ (fun opening => Det_pure _)
  by_cases hn : name = "Drums"
  · simp only [hn, eq_self_iff_true, if_true]
    exact Det_pure _
  · have hn' : (name = "Drums") = False := by simp [hn]
    simp only [hn', if_false]
    exact Det_bind (fun r => r.choice RANDOM_INSTRUMENTS 0)
      (fun program_num ra =>
        ([MidoMsg.program_change program_num (trackChannel name) 0], ra))
      (det_choice RANDOM_INSTRUMENTS 0) (fun program_num => Det_pure _)

/-- The serializer's track loop is deterministic. -/
theorem det_combineTracks :
    ∀ td : List (String × List TimedEvent), Det (fun r => combineTracks r td) := by
  intro td
  induction td with
  | nil => exact Det_pure []
  | cons nameEv rest ih =>
    refine Det_bind (fun r => midiTrackFor r nameEv.1 nameEv.2)
      (fun msgs r1 =>
        (fun restTracks r2 => (msgs :: restTracks, r2))
          (combineTracks r1 rest).1 (combineTracks r1 rest).2)
      (det_midiTrackFor nameEv.1 nameEv.2) (fun msgs => ?_)
    exact Det_bind (fun r => combineTracks r rest)
      (fun restTracks r2 => (msgs :: restTracks, r2)) ih (fun restTracks => Det_pure _)

/-- The serializer is deterministic as a fallible computation. -/
theorem detE_combine (td : List (String × List TimedEvent)) (t : Nat) :
    DetE (fun r => combine_and_write_midi r td t) := by
  by_cases ht : t = 0
  · subst ht
    have hbody : (fun r => combine_and_write_midi r td 0) =
        (fun _ => (.error "ZeroDivisionError" : Except String (MidiFileM × Rng))) := rfl
    rw [hbody]
    exact DetE_error _
  · have hbody : (fun r => combine_and_write_midi r td t) =
        (fun r => (.ok (⟨TICKS_PER_BEAT,
            [MidoMsg.set_tempo (60000000 / t) 0] :: (combineTracks r td).1⟩,
          (combineTracks r td).2) : Except String (MidiFileM × Rng))) := by
      funext r
      simp [combine_and_write_midi, pyFloorDiv, ht]
    rw [hbody]
    exact DetE_ok
      (fun r => (⟨TICKS_PER_BEAT,
          [MidoMsg.set_tempo (60000000 / t) 0] :: (combineTracks r td).1⟩,
        (combineTracks r td).2))
      (Det_map (fun r => combineTracks r td)
        (fun tracks =>
          (⟨TICKS_PER_BEAT, [MidoMsg.set_tempo (60000000 / t) 0] :: tracks⟩ : MidiFileM))
        (det_combineTracks td))

/-- The whole generation pipeline is deterministic as a fallible
computation. -/
theorem detE_runAll (m b t : Nat) : DetE (fun r => runAll r m b t) := by
  refine @DetE_bind (List (List Int) × String) RunOutput
    (fun r => get_random_chord_progression r m)
    (fun cs r1 =>
      (fun drum r2 =>
        (fun bass r3 =>
          match create_harmony_track_chaos r3 cs.1 b TICKS_PER_BEAT with
          | .error e => .error e
          | .ok (harmony, r4) =>
            (fun scale r5 =>
              (fun melody r6 =>
                match combine_and_write_midi r6
                    [("Drums", drum), ("Bass", bass),
                     ("Harmony", harmony), ("Melody", melody)] t with
                | .error e => .error e
                | .ok (midi, r7) =>
                  .ok (⟨cs.1, cs.2, drum, bass, harmony, scale, melody, midi⟩, r7))
                (create_melody_track_chaos r5 cs.1 scale b TICKS_PER_BEAT).1
                (create_melody_track_chaos r5 cs.1 scale b TICKS_PER_BEAT).2)
              (buildScaleNotes r4).1 (buildScaleNotes r4).2)
          (create_bass_track_chaos r2 cs.1 b TICKS_PER_BEAT).1
          (create_bass_track_chaos r2 cs.1 b TICKS_PER_BEAT).2)
        (create_drum_track_chaos r1 m b TICKS_PER_BEAT).1
        (create_drum_track_chaos r1 m b TICKS_PER_BEAT).2)
    (det_progression m) (fun cs => ?_)
  refine @DetE_bind (List TimedEvent) RunOutput
    (fun r => create_drum_track_chaos r m b TICKS_PER_BEAT)
    (fun drum r2 =>
      (fun bass r3 =>
        match create_harmony_track_chaos r3 cs.1 b TICKS_PER_BEAT with
        | .error e => .error e
        | .ok (harmony, r4) =>
          (fun scale r5 =>
            (fun melody r6 =>
              match combine_and_write_midi r6
                  [("Drums", drum), ("Bass", bass),
                   ("Harmony", harmony), ("Melody", melody)] t with
              | .error e => .error e
              | .ok (midi, r7) =>
                .ok (⟨cs.1, cs.2, drum, bass, harmony, scale, melody, midi⟩, r7))
              (create_melody_track_chaos r5 cs.1 scale b TICKS_PER_BEAT).1
              (create_melody_track_chaos r5 cs.1 scale b TICKS_PER_BEAT).2)
            (buildScaleNotes r4).1 (buildScaleNotes r4).2)
        (create_bass_track_chaos r2 cs.1 b TICKS_PER_BEAT).1
        (create_bass_track_chaos r2 cs.1 b TICKS_PER_BEAT).2)
    (det_create_drum m b TICKS_PER_BEAT) (fun drum => ?_)
  refine @DetE_bind (List TimedEvent) RunOutput
    (fun r => create_bass_track_chaos r cs.1 b TICKS_PER_BEAT)
    (fun bass r3 =>
      match create_harmony_track_chaos r3 cs.1 b TICKS_PER_BEAT with
      | .error e => .error e
      | .ok (harmony, r4) =>
        (fun scale r5 =>
          (fun melody r6 =>
            match combine_and_write_midi r6
                [("Drums", drum), ("Bass", bass),
                 ("Harmony", harmony), ("Melody", melody)] t with
            | .error e => .error e
            | .ok (midi, r7) =>
              .ok (⟨cs.1, cs.2, drum, bass, harmony, scale, melody, midi⟩, r7))
            (create_melody_track_chaos r5 cs.1 scale b TICKS_PER_BEAT).1
            (create_melody_track_chaos r5 cs.1 scale b TICKS_PER_BEAT).2)
          (buildScaleNotes r4).1 (buildScaleNotes r4).2)
    (det_create_bass cs.1 b TICKS_PER_BEAT) (fun bass => ?_)
  have hh : (fun r3 =>
      match create_harmony_track_chaos r3 cs.1 b TICKS_PER_BEAT with
      | .error e => (.error e : Except String (RunOutput × Rng))
      | .ok (harmony, r4) =>
        (fun scale r5 =>
          (fun melody r6 =>
            match combine_and_write_midi r6
                [("Drums", drum), ("Bass", bass),
                 ("Harmony", harmony), ("Melody", melody)] t with
            | .error e => .error e
            | .ok (midi, r7) =>
              .ok (⟨cs.1, cs.2, drum, bass, harmony, scale, melody, midi⟩, r7))
            (create_melody_track_chaos r5 cs.1 scale b TICKS_PER_BEAT).1
            (create_melody_track_chaos r5 cs.1 scale b TICKS_PER_BEAT).2)
          (buildScaleNotes r4).1 (buildScaleNotes r4).2) =
      (fun r3 => exBind (create_harmony_track_chaos r3 cs.1 b TICKS_PER_BEAT)
        (fun harmony r4 =>
          (fun scale r5 =>
            (fun melody r6 =>
              match combine_and_write_midi r6
                  [("Drums", drum), ("Bass", bass),
                   ("Harmony", harmony), ("Melody", melody)] t with
              | .error e => .error e
              | .ok (midi, r7) =>
                .ok (⟨cs.1, cs.2, drum, bass, harmony, scale, melody, midi⟩, r7))
              (create_melody_track_chaos r5 cs.1 scale b TICKS_PER_BEAT).1
              (create_melody_track_chaos r5 cs.1 scale b TICKS_PER_BEAT).2)
            (buildScaleNotes r4).1 (buildScaleNotes r4).2)) := by
    funext r3
    rcases h4 : create_harmony_track_chaos r3 cs.1 b TICKS_PER_BEAT
      with e | ⟨harmony, r4⟩ <;> rfl
  beta_reduce
  rw [hh]
  refine @DetE_bindE (List TimedEvent) RunOutput
    (fun r => create_harmony_track_chaos r cs.1 b TICKS_PER_BEAT)
    (fun harmony r4 =>
      (fun scale r5 =>
        (fun melody r6 =>
          match combine_and_write_midi r6
              [("Drums", drum), ("Bass", bass),
               ("Harmony", harmony), ("Melody", melody)] t with
          | .error e => .error e
          | .ok (midi, r7) =>
            .ok (⟨cs.1, cs.2, drum, bass, harmony, scale, melody, midi⟩, r7))
          (create_melody_track_chaos r5 cs.1 scale b TICKS_PER_BEAT).1
          (create_melody_track_chaos r5 cs.1 scale b TICKS_PER_BEAT).2)
        (buildScaleNotes r4).1 (buildScaleNotes r4).2)
    (detE_create_harmony cs.1 b TICKS_PER_BEAT) (fun harmony => ?_)
  refine @DetE_bind (List Int) RunOutput
    (fun r => buildScaleNotes r)
    (fun scale r5 =>
      (fun melody r6 =>
        match combine_and_write_midi r6
            [("Drums", drum), ("Bass", bass),
             ("Harmony", harmony), ("Melody", melody)] t with
        | .error e => .error e
        | .ok (midi, r7) =>
          .ok (⟨cs.1, cs.2, drum, bass, harmony, scale, melody, midi⟩, r7))
        (create_melody_track_chaos r5 cs.1 scale b TICKS_PER_BEAT).1
        (create_melody_track_chaos r5 cs.1 scale b TICKS_PER_BEAT).2)
    det_buildScaleNotes (fun scale => ?_)
  refine @DetE_bind (List TimedEvent) RunOutput
    (fun r => create_melody_track_chaos r cs.1 scale b TICKS_PER_BEAT)
    (fun melody r6 =>
      match combine_and_write_midi r6
          [("Drums", drum), ("Bass", bass),
           ("Harmony", harmony), ("Melody", melody)] t with
      | .error e => .error e
      | .ok (midi, r7) =>
        .ok (⟨cs.1, cs.2, drum, bass, harmony, scale, melody, midi⟩, r7))
    (det_create_melody cs.1 scale b TICKS_PER_BEAT) (fun melody => ?_)
  have hc : (fun r6 =>
      match combine_and_write_midi r6
          [("Drums", drum), ("Bass", bass),
           ("Harmony", harmony), ("Melody", melody)] t with
      | .error e => (.error e : Except String (RunOutput × Rng))
      | .ok (midi, r7) =>
        .ok (⟨cs.1, cs.2, drum, bass, harmony, scale, melody, midi⟩, r7)) =
      (fun r6 => exBind (combine_and_write_midi r6
          [("Drums", drum), ("Bass", bass),
           ("Harmony", harmony), ("Melody", melody)] t)
        (fun midi r7 =>
          .ok (⟨cs.1, cs.2, drum, bass, harmony, scale, melody, midi⟩, r7))) := by
    funext r6
    rcases h7 : combine_and_write_midi r6
        [("Drums", drum), ("Bass", bass),
         ("Harmony", harmony), ("Melody", melody)] t
      with e | ⟨midi, r7⟩ <;> rfl
  beta_reduce
  rw [hc]
  refine @DetE_bindE MidiFileM RunOutput
    (fun r => combine_and_write_midi r
      [("Drums", drum), ("Bass", bass),
       ("Harmony", harmony), ("Melody", melody)] t)
    (fun midi r7 =>
      .ok (⟨cs.1, cs.2, drum, bass, harmony, scale, melody, midi⟩, r7))
    (detE_combine [("Drums", drum), ("Bass", bass),
       ("Harmony", harmony), ("Melody", melody)] t) (fun midi => ?_)
  exact DetE_ok
    (fun r => ((⟨cs.1, cs.2, drum, bass, harmony, scale, melody, midi⟩ : RunOutput), r))
    (Det_pure (⟨cs.1, cs.2, drum, bass, harmony, scale, melody, midi⟩ : RunOutput))

/-- C10: generation is deterministic given the random-number stream and the
inputs. For a fixed measure count, beats per measure, and tempo, a run that
succeeds from one draw stream is reproduced exactly by a run from any stream
that agrees on the consumed prefix of draws: the progression, all four
generated event lists, and the serialized file image (packaged in
`RunOutput`) are identical, and the same number of draws is consumed. -/
theorem claim_C10 (s1 s2 : Nat → Nat) (m b t : Nat) (out : RunOutput) (rf : Rng)
    (h : runAll ⟨s1, 0⟩ m b t = .ok (out, rf))
    (hagree : ∀ j, j < rf.idx → s1 j = s2 j) :
    runAll ⟨s2, 0⟩ m b t = .ok (out, ⟨s2, rf.idx⟩) :=
  (detE_runAll m b t).2 s1 s2 0 out rf h (fun j _ hj2 => hagree j hj2)

/-- The determinism theorem applied at a concrete input: a run from the
all-zero stream is reproduced by a run from a stream that differs only
beyond the consumed prefix. -/
theorem claim_C10_witness :
    ∃ out rf, runAll ⟨fun _ => 0, 0⟩ 1 4 120 = Except.ok (out, rf) ∧
      runAll ⟨fun j => if j < rf.idx then 0 else 7, 0⟩ 1 4 120 =
        Except.ok (out, ⟨fun j => if j < rf.idx then 0 else 7, rf.idx⟩) := by
  obtain ⟨out, rf, h, _⟩ := runAll_spec ⟨fun _ => 0, 0⟩ 1 4 120 (by decide)
  exact ⟨out, rf, h,
    claim_C10 (fun _ => 0) (fun j => if j < rf.idx then 0 else 7) 1 4 120 out rf h
      (fun j hj => (if_pos hj).symm)⟩
